import Mathlib

/-!
Verification of the sixtyfive 6502 disassembler (src/disassemble/*) against
its natural-language specification.  The Rust code is shallowly embedded:
machine integers are `Nat`/`Int` with explicit `% 2^w` where wrap-around
matters, fallible operations live in a result monad, Rust panics
(unchecked `Vec` indexing, `unwrap`) are a distinguished `crash` outcome,
and the recursive traversal is defined with explicit fuel (`fuelOut` marks
fuel exhaustion, an artifact of the embedding; sufficiency of fuel is proved).
-/

namespace Sixtyfive

/-- Embedding of `DisassembleError` (src/disassemble/mod.rs); only the
variants the disassembly engine itself produces are modelled. -/
inductive DisassembleError where
  | parseError (msg : String)
  | wrappedError (msg : String)
deriving DecidableEq

/-- Lowercase hex digit, as produced by Rust format specifier x. -/
def hexDigitL (n : Nat) : Char :=
  if n < 10 then Char.ofNat (48 + n) else Char.ofNat (87 + n)

/-- Uppercase hex digit, as produced by Rust format specifier X. -/
def hexDigitU (n : Nat) : Char :=
  if n < 10 then Char.ofNat (48 + n) else Char.ofNat (55 + n)

/-- Rust format 02x on a u8 value. -/
def hex2L (v : Nat) : String := String.mk [hexDigitL (v / 16 % 16), hexDigitL (v % 16)]

/-- Rust format 02X on a u8 value. -/
def hex2U (v : Nat) : String := String.mk [hexDigitU (v / 16 % 16), hexDigitU (v % 16)]

/-- Rust format 04x on a u16 value. -/
def hex4L (v : Nat) : String :=
  String.mk [hexDigitL (v / 4096 % 16), hexDigitL (v / 256 % 16),
             hexDigitL (v / 16 % 16), hexDigitL (v % 16)]

/-- Rust format 04X on a u16 value. -/
def hex4U (v : Nat) : String :=
  String.mk [hexDigitU (v / 4096 % 16), hexDigitU (v / 256 % 16),
             hexDigitU (v / 16 % 16), hexDigitU (v % 16)]

/-- One binary digit of `v`. -/
def bitChar (v i : Nat) : Char := if v / 2 ^ i % 2 = 1 then '1' else '0'

/-- Rust format #010b on a u8 value: 0b followed by eight binary digits. -/
def binary8 (v : Nat) : String :=
  "0b" ++ String.mk [bitChar v 7, bitChar v 6, bitChar v 5, bitChar v 4,
                     bitChar v 3, bitChar v 2, bitChar v 1, bitChar v 0]

/-- Embedding of `VariableValue` (src/disassemble/variable.rs). -/
inductive VariableValue where
  | U8 (v : Nat)
  | U16 (v : Nat)
deriving DecidableEq

/-- Embedding of `Variable` (src/disassemble/variable.rs). -/
structure Variable where
  name : String
  value : VariableValue
deriving DecidableEq

/-- Display impl of `VariableValue`. -/
def VariableValue.toDisplay : VariableValue → String
  | .U8 v => "$" ++ hex2U v
  | .U16 v => "$" ++ hex4U v

/-- The `addr_to_variable` HashMap of `Code`, modelled as an association
list with distinct keys maintained by `mapInsert`. -/
abbrev VarMap := List (Nat × Variable)

def mapGet? : VarMap → Nat → Option Variable
  | [], _ => none
  | p :: rest, k => if p.1 = k then some p.2 else mapGet? rest k

def mapInsert : VarMap → Nat → Variable → VarMap
  | [], k, v => [(k, v)]
  | p :: rest, k, v => if p.1 = k then (k, v) :: rest else p :: mapInsert rest k v

def mapKeys (m : VarMap) : List Nat := m.map Prod.fst

/-- Embedding of the `Instruction` enum (src/disassemble/instruction.rs).
u8/u16 operands are `Nat`; the i8 relative displacement is `Int`. -/
inductive Instruction where
  | ORA_ZP (v : Nat)
  | ASL_ZP (v : Nat)
  | PHP
  | ORA_IMM (v : Nat)
  | ASL
  | BPL_REL (rel : Int) (label : String)
  | CLC
  | JSR_ABS (addr : Nat) (label : String)
  | BIT_ZP (v : Nat)
  | AND_ZP (v : Nat)
  | PLP
  | AND_IMM (v : Nat)
  | ROL
  | BMI_REL (rel : Int) (label : String)
  | AND_ZP_X (v : Nat)
  | SEC
  | RTI
  | EOR_ZP (v : Nat)
  | LSR_ZP (v : Nat)
  | PHA
  | EOR_IMM (v : Nat)
  | LSR
  | JMP_ABS (addr : Nat) (label : String)
  | EOR_ABS (v : Nat)
  | RTS
  | ADC_ZP (v : Nat)
  | ROR_ZP (v : Nat)
  | PLA
  | ADC_IMM (v : Nat)
  | ROR
  | ADC_ABS (v : Nat)
  | SEI
  | ADC_ABS_X (v : Nat)
  | STY_ZP (v : Nat)
  | STA_ZP (v : Nat)
  | STX_ZP (v : Nat)
  | DEY
  | TXA
  | STY_ABS (v : Nat)
  | STA_ABS (v : Nat)
  | STX_ABS (v : Nat)
  | BCC_REL (rel : Int) (label : String)
  | STA_IND_Y (v : Nat)
  | STY_ZP_X (v : Nat)
  | STA_ZP_X (v : Nat)
  | TYA
  | STA_ABS_Y (v : Nat)
  | TXS
  | STA_ABS_X (v : Nat)
  | LDY_IMM (v : Nat)
  | LDX_IMM (v : Nat)
  | LDY_ZP (v : Nat)
  | LDA_ZP (v : Nat)
  | LDX_ZP (v : Nat)
  | LDA_IMM (v : Nat)
  | TAX
  | TAY
  | LDY_ABS (v : Nat)
  | LDA_ABS (v : Nat)
  | LDX_ABS (v : Nat)
  | BCS_REL (rel : Int) (label : String)
  | LDA_IND_Y (v : Nat)
  | LDY_ZP_X (v : Nat)
  | LDA_ZP_X (v : Nat)
  | LDA_ABS_Y (v : Nat)
  | LDY_ABS_X (v : Nat)
  | LDA_ABS_X (v : Nat)
  | LDX_ABS_Y (v : Nat)
  | CPY_IMM (v : Nat)
  | CPY_ZP (v : Nat)
  | CMP_ZP (v : Nat)
  | DEC_ZP (v : Nat)
  | INY
  | CMP_IMM (v : Nat)
  | DEX
  | CMP_ABS (v : Nat)
  | DEC_ABS (v : Nat)
  | BNE_REL (rel : Int) (label : String)
  | CMP_ZP_X (v : Nat)
  | DEC_ZP_X (v : Nat)
  | CLD
  | CMP_ABS_Y (v : Nat)
  | CMP_ABS_X (v : Nat)
  | DEC_ABS_X (v : Nat)
  | CPX_IMM (v : Nat)
  | CPX_ZP (v : Nat)
  | SBC_ZP (v : Nat)
  | INC_ZP (v : Nat)
  | INX
  | SBC_IMM (v : Nat)
  | INC_ABS (v : Nat)
  | BEQ_REL (rel : Int) (label : String)
  | INC_ZP_X (v : Nat)
  | SBC_ABS_X (v : Nat)
  | INC_ABS_X (v : Nat)
  | JAM

/-- Embedding of the `AsmCode` enum (src/disassemble/code.rs). -/
inductive AsmCode where
  | dataHexU8 (v : Nat)
  | dataHexU16 (v : Nat)
  | dataU8 (v : Nat)
  | dataBinaryU8 (v : Nat)
  | dataString (s : String)
  | dataSeq (l : List AsmCode)
  | instruction (i : Instruction)
  | used

/-- `AsmCode::is_eq_u8`. -/
def AsmCode.is_eq_u8 : AsmCode → Nat → Bool
  | .dataHexU8 v, arg => v == arg
  | _, _ => false

/-- `AsmCode::to_u8`: numeric value of a byte-like cell, decode error
otherwise (the error message is abstracted to a fixed string). -/
def AsmCode.to_u8 : AsmCode → Except DisassembleError Nat
  | .dataHexU8 v => .ok v
  | .dataU8 v => .ok v
  | .dataBinaryU8 v => .ok v
  | _ => .error (.parseError "unexpected asm code")

/-- Embedding of `Statement` (src/disassemble/code.rs). -/
structure Statement where
  asm_code : AsmCode
  comment : Option String
  segment : Option String
  label : Option String

/-- Embedding of `Code` (src/disassemble/code.rs). -/
structure Code where
  stmts : List Statement
  addr_to_variable : VarMap

/-- Result of running embedded Rust code: normal value, `Result::Err`,
Rust panic (`crash`), or exhaustion of the embedding's fuel (`fuelOut`). -/
inductive RResult (α : Type) where
  | ok (a : α)
  | err (e : DisassembleError)
  | crash
  | fuelOut

/-- State-threading result monad over `Code`. -/
abbrev M (α : Type) := Code → RResult (α × Code)

def mPure {α : Type} (a : α) : M α := fun c => .ok (a, c)

def mBind {α β : Type} (x : M α) (f : α → M β) : M β := fun c =>
  match x c with
  | .ok (a, c2) => f a c2
  | .err e => .err e
  | .crash => .crash
  | .fuelOut => .fuelOut

def mThrow {α : Type} (e : DisassembleError) : M α := fun _ => .err e

/-- Capture a `Result` as a value, like binding a Rust `Result` without
the question-mark operator.  On `err` the pre-state is kept; in the source
the mutations before the error persist, but every continuation after a
captured error either never errs or discards the state, so this is
observationally faithful. -/
def tryM {α : Type} (x : M α) : M (Except DisassembleError α) := fun c =>
  match x c with
  | .ok (a, c2) => .ok (.ok a, c2)
  | .err e => .ok (.error e, c)
  | .crash => .crash
  | .fuelOut => .fuelOut

def exceptToM {α : Type} : Except DisassembleError α → M α
  | .ok a => mPure a
  | .error e => mThrow e

/-- The tombstone statement `take` installs. -/
def usedStatement : Statement := ⟨.used, none, none, none⟩

/-- `Code::new`: one DataHexU8 cell per input byte. -/
def Code.new (data : List Nat) : Code :=
  ⟨data.map (fun v => ⟨.dataHexU8 v, none, none, none⟩), []⟩

/-- `Code::take`: unchecked index (crash when out of bounds), replaces the
whole statement with a fresh tombstone and returns the old one.  Note the
Rust function always returns `Ok`. -/
def Code.take (offset : Nat) : M Statement := fun c =>
  match c.stmts.get? offset with
  | some s => .ok (s, ⟨c.stmts.set offset usedStatement, c.addr_to_variable⟩)
  | none => .crash

/-- `Code::get_u8`: unchecked index, then `AsmCode::to_u8`. -/
def Code.get_u8 (offset : Nat) : M Nat := fun c =>
  match c.stmts.get? offset with
  | some s =>
    match s.asm_code.to_u8 with
    | .ok v => .ok (v, c)
    | .error e => .err e
  | none => .crash

/-- Reinterpretation of a u8 as an i8 (Rust `as i8`). -/
def u8AsI8 (v : Nat) : Int := if v < 128 then (v : Int) else (v : Int) - 256

/-- `Code::get_i8`. -/
def Code.get_i8 (offset : Nat) : M Int :=
  mBind (Code.get_u8 offset) (fun v => mPure (u8AsI8 v))

/-- `Code::set`: unchecked index assignment. -/
def Code.set (offset : Nat) (s : Statement) : M Unit := fun c =>
  match c.stmts.get? offset with
  | some _ => .ok ((), ⟨c.stmts.set offset s, c.addr_to_variable⟩)
  | none => .crash

/-- Assignment to `stmts[offset].asm_code` (metadata preserved). -/
def Code.setAsm (offset : Nat) (a : AsmCode) : M Unit := fun c =>
  match c.stmts.get? offset with
  | some s => .ok ((), ⟨c.stmts.set offset { s with asm_code := a }, c.addr_to_variable⟩)
  | none => .crash

/-- The tombstoning loop of `Code::replace` over `count` cells from `start`. -/
def Code.replaceUsedLoop (start : Nat) : Nat → M Unit
  | 0 => mPure ()
  | n + 1 => mBind (Code.setAsm start .used) (fun _ => Code.replaceUsedLoop (start + 1) n)

/-- `Code::replace`: tombstone every cell of the range, then install the
new code at the start of the range. -/
def Code.replace (start stop : Nat) (a : AsmCode) : M Unit :=
  mBind (Code.replaceUsedLoop start (stop - start)) (fun _ => Code.setAsm start a)

/-- The operand-collecting loop of `Code::replace_with_instr`: takes the
`n` cells offset+i+1 .. offset+i+n and returns their asm codes (the source
iterates i over 0..args_len). -/
def Code.takeArgsAux (offset : Nat) : Nat → Nat → M (List AsmCode)
  | _, 0 => mPure []
  | i, n + 1 =>
    mBind (Code.take (offset + i + 1)) (fun s =>
    mBind (Code.takeArgsAux offset (i + 1) n) (fun rest =>
    mPure (s.asm_code :: rest)))

/-- `Code::replace_with_instr`. -/
def Code.replace_with_instr (offset al : Nat)
    (f : List AsmCode → Except DisassembleError Instruction) : M Nat :=
  mBind (Code.takeArgsAux offset 0 al) (fun args =>
  mBind (exceptToM (f args)) (fun instr =>
  mBind (Code.replace offset (offset + al + 1) (.instruction instr)) (fun _ =>
  mPure (al + 1))))

/-- `Code::set_comment`. -/
def Code.set_comment (offset : Nat) (com : String) : M Unit := fun c =>
  match c.stmts.get? offset with
  | some s => .ok ((), ⟨c.stmts.set offset { s with comment := some com }, c.addr_to_variable⟩)
  | none => .crash

/-- `Code::set_segment`. -/
def Code.set_segment (offset : Nat) (seg : String) : M Unit := fun c =>
  match c.stmts.get? offset with
  | some s => .ok ((), ⟨c.stmts.set offset { s with segment := some seg }, c.addr_to_variable⟩)
  | none => .crash

/-- `Code::set_label`. -/
def Code.set_label (offset : Nat) (lab : String) : M Unit := fun c =>
  match c.stmts.get? offset with
  | some s => .ok ((), ⟨c.stmts.set offset { s with label := some lab }, c.addr_to_variable⟩)
  | none => .crash

/-- `Code::set_variable`. -/
def Code.set_variable (addr : Nat) (v : Variable) : M Unit := fun c =>
  .ok ((), ⟨c.stmts, mapInsert c.addr_to_variable addr v⟩)

/-- Boolean test whether an asm code is an instruction. -/
def AsmCode.isInstr : AsmCode → Bool
  | .instruction _ => true
  | _ => false

/-- `Code::is_instruction`: unchecked index, then classification test. -/
def Code.is_instruction (offset : Nat) : M Bool := fun c =>
  match c.stmts.get? offset with
  | some s => .ok (s.asm_code.isInstr, c)
  | none => .crash

/-- `Code::is_eq_u8`: unchecked index, then value comparison. -/
def Code.is_eq_u8 (offset : Nat) (d : Nat) : M Bool := fun c =>
  match c.stmts.get? offset with
  | some s => .ok (s.asm_code.is_eq_u8 d, c)
  | none => .crash

/-- `Instruction::to_write_string_zp`. -/
def to_write_string_zp (instr : String) (zp_addr : Nat) (m : VarMap) : String × VarMap :=
  match mapGet? m zp_addr with
  | some var => (instr ++ " " ++ var.name, m)
  | none =>
    (instr ++ " $" ++ hex2L zp_addr,
     mapInsert m zp_addr ⟨"ZP_" ++ hex2U zp_addr, .U8 zp_addr⟩)

/-- `Instruction::to_write_string_zp_x`. -/
def to_write_string_zp_x (instr : String) (zp_addr : Nat) (m : VarMap) : String × VarMap :=
  match mapGet? m zp_addr with
  | some var => (instr ++ " " ++ var.name ++ ",x", m)
  | none =>
    (instr ++ " $" ++ hex2L zp_addr ++ ",x",
     mapInsert m zp_addr ⟨"ZP_" ++ hex2U zp_addr, .U8 zp_addr⟩)

/-- `Instruction::to_write_string_abs`. -/
def to_write_string_abs (instr : String) (addr : Nat) (m : VarMap) : String × VarMap :=
  match mapGet? m addr with
  | some var => (instr ++ " " ++ var.name, m)
  | none =>
    (instr ++ " $" ++ hex4L addr,
     mapInsert m addr ⟨"ABS_" ++ hex4U addr, .U16 addr⟩)

/-- `Instruction::to_write_string_abs_x`. -/
def to_write_string_abs_x (instr : String) (addr : Nat) (m : VarMap) : String × VarMap :=
  match mapGet? m addr with
  | some var => (instr ++ " " ++ var.name ++ ",x", m)
  | none =>
    (instr ++ " $" ++ hex4L addr ++ ",x",
     mapInsert m addr ⟨"ABS_" ++ hex4U addr, .U16 addr⟩)

/-- `Instruction::to_write_string_abs_y`. -/
def to_write_string_abs_y (instr : String) (addr : Nat) (m : VarMap) : String × VarMap :=
  match mapGet? m addr with
  | some var => (instr ++ " " ++ var.name ++ ",y", m)
  | none =>
    (instr ++ " $" ++ hex4L addr ++ ",y",
     mapInsert m addr ⟨"ABS_" ++ hex4U addr, .U16 addr⟩)

/-- `Instruction::to_write_string` (src/disassemble/instruction.rs); the
mnemonic strings are copied verbatim, including the source's use of dec
for `CMP_ZP_X`. -/
def Instruction.to_write_string : Instruction → VarMap → String × VarMap
  | .ORA_ZP v, m => to_write_string_zp "ora" v m
  | .ASL_ZP v, m => to_write_string_zp "asl" v m
  | .PHP, m => ("php", m)
  | .ORA_IMM v, m => ("ora #$" ++ hex2L v, m)
  | .ASL, m => ("asl", m)
  | .BPL_REL _ v, m => ("bpl " ++ v, m)
  | .CLC, m => ("clc", m)
  | .JSR_ABS _ v, m => ("jsr " ++ v, m)
  | .BIT_ZP v, m => to_write_string_zp "bit" v m
  | .AND_ZP v, m => to_write_string_zp "and" v m
  | .PLP, m => ("plp", m)
  | .AND_IMM v, m => ("and #$" ++ hex2L v, m)
  | .ROL, m => ("rol", m)
  | .BMI_REL _ v, m => ("bmi " ++ v, m)
  | .AND_ZP_X v, m => to_write_string_zp_x "and" v m
  | .SEC, m => ("sec", m)
  | .RTI, m => ("rti", m)
  | .EOR_ZP v, m => to_write_string_zp "eor" v m
  | .LSR_ZP v, m => to_write_string_zp "lsr" v m
  | .PHA, m => ("pha", m)
  | .EOR_IMM v, m => ("eor #$" ++ hex2L v, m)
  | .LSR, m => ("lsr", m)
  | .JMP_ABS _ v, m => ("jmp " ++ v, m)
  | .EOR_ABS v, m => to_write_string_abs "eor" v m
  | .RTS, m => ("rts", m)
  | .ADC_ZP v, m => to_write_string_zp "adc" v m
  | .ROR_ZP v, m => to_write_string_zp "ror" v m
  | .PLA, m => ("pla", m)
  | .ADC_IMM v, m => ("adc #$" ++ hex2L v, m)
  | .ROR, m => ("ror", m)
  | .ADC_ABS v, m => to_write_string_abs "adc" v m
  | .SEI, m => ("sei", m)
  | .ADC_ABS_X v, m => to_write_string_abs_x "adc" v m
  | .STY_ZP v, m => to_write_string_zp "sty" v m
  | .STA_ZP v, m => to_write_string_zp "sta" v m
  | .STX_ZP v, m => to_write_string_zp "stx" v m
  | .DEY, m => ("dey", m)
  | .TXA, m => ("txa", m)
  | .STY_ABS v, m => to_write_string_abs "sty" v m
  | .STA_ABS v, m => to_write_string_abs "sta" v m
  | .STX_ABS v, m => to_write_string_abs "stx" v m
  | .BCC_REL _ v, m => ("bcc " ++ v, m)
  | .STA_IND_Y v, m => ("sta ($" ++ hex2L v ++ "),y", m)
  | .STY_ZP_X v, m => to_write_string_zp_x "sty" v m
  | .STA_ZP_X v, m => to_write_string_zp_x "sta" v m
  | .TYA, m => ("tya", m)
  | .STA_ABS_Y v, m => to_write_string_abs_y "sta" v m
  | .TXS, m => ("txs", m)
  | .STA_ABS_X v, m => to_write_string_abs_x "sta" v m
  | .LDY_IMM v, m => ("ldy #$" ++ hex2L v, m)
  | .LDX_IMM v, m => ("ldx #$" ++ hex2L v, m)
  | .LDY_ZP v, m => to_write_string_zp "ldy" v m
  | .LDA_ZP v, m => to_write_string_zp "lda" v m
  | .LDX_ZP v, m => to_write_string_zp "ldx" v m
  | .LDA_IMM v, m => ("lda #$" ++ hex2L v, m)
  | .TAX, m => ("tax", m)
  | .TAY, m => ("tay", m)
  | .LDA_IND_Y v, m => ("lda ($" ++ hex2L v ++ "),y", m)
  | .LDY_ZP_X v, m => to_write_string_zp_x "ldy" v m
  | .LDA_ZP_X v, m => to_write_string_zp_x "lda" v m
  | .LDA_ABS_Y v, m => to_write_string_abs_y "lda" v m
  | .LDY_ABS_X v, m => to_write_string_abs_x "ldy" v m
  | .LDA_ABS_X v, m => to_write_string_abs_x "lda" v m
  | .LDX_ABS_Y v, m => to_write_string_abs_y "ldx" v m
  | .LDY_ABS v, m => to_write_string_abs "ldy" v m
  | .LDA_ABS v, m => to_write_string_abs "lda" v m
  | .LDX_ABS v, m => to_write_string_abs "ldx" v m
  | .BCS_REL _ v, m => ("bcs " ++ v, m)
  | .CPY_IMM v, m => ("cpy #$" ++ hex2L v, m)
  | .CPY_ZP v, m => to_write_string_zp "cpy" v m
  | .CMP_ZP v, m => to_write_string_zp "cmp" v m
  | .DEC_ZP v, m => to_write_string_zp "dec" v m
  | .INY, m => ("iny", m)
  | .CMP_IMM v, m => ("cmp #$" ++ hex2L v, m)
  | .DEX, m => ("dex", m)
  | .CMP_ABS v, m => to_write_string_abs "cmp" v m
  | .DEC_ABS v, m => to_write_string_abs "dec" v m
  | .BNE_REL _ v, m => ("bne " ++ v, m)
  | .CMP_ZP_X v, m => to_write_string_zp_x "dec" v m
  | .DEC_ZP_X v, m => to_write_string_zp_x "dec" v m
  | .CLD, m => ("cld", m)
  | .CMP_ABS_Y v, m => to_write_string_abs_y "cmp" v m
  | .CMP_ABS_X v, m => to_write_string_abs_x "cmp" v m
  | .DEC_ABS_X v, m => to_write_string_abs_x "dec" v m
  | .CPX_IMM v, m => ("cpx #$" ++ hex2L v, m)
  | .CPX_ZP v, m => to_write_string_zp "cpx" v m
  | .SBC_ZP v, m => to_write_string_zp "sbc" v m
  | .INC_ZP v, m => to_write_string_zp "inc" v m
  | .INX, m => ("inx", m)
  | .SBC_IMM v, m => ("sbc #$" ++ hex2L v, m)
  | .INC_ABS v, m => to_write_string_abs "inc" v m
  | .BEQ_REL _ v, m => ("beq " ++ v, m)
  | .INC_ZP_X v, m => to_write_string_zp_x "inc" v m
  | .SBC_ABS_X v, m => to_write_string_abs_x "sbc" v m
  | .INC_ABS_X v, m => to_write_string_abs_x "inc" v m
  | .JAM, m => ("jam", m)

/-- The inline per-element formatter of the `DataSeq` arm of
`AsmCode::to_write_string`; the source panics on non-data elements, which
is unreachable for the sequences the program builds and abstracted to the
empty string here. -/
def seqItemStr : AsmCode → String
  | .dataHexU8 v => "$" ++ hex2U v
  | .dataU8 v => Nat.repr v
  | .dataBinaryU8 v => binary8 v
  | .dataString s => "\"" ++ s ++ "\""
  | _ => ""

/-- `AsmCode::to_write_string` (src/disassemble/code.rs). -/
def AsmCode.to_write_string : AsmCode → VarMap → String × VarMap
  | .dataHexU8 v, m => (".byte $" ++ hex2U v, m)
  | .dataHexU16 v, m => (".byte $" ++ hex4U v, m)
  | .dataU8 v, m => (".byte " ++ Nat.repr v, m)
  | .dataBinaryU8 v, m => (".byte " ++ binary8 v, m)
  | .dataString s, m => (".byte \"" ++ s ++ "\"", m)
  | .dataSeq l, m => (".byte " ++ String.intercalate ", " (l.map seqItemStr), m)
  | .instruction i, m =>
    let r := i.to_write_string m
    ("    " ++ r.1, r.2)
  | .used, m => ("", m)

/-- Rust left-aligned pad to a minimum width with spaces. -/
def padR (s : String) (w : Nat) : String :=
  s ++ String.mk (List.replicate (w - s.length) ' ')

/-- `Code::with_comment`. -/
def with_comment (first : String) (comment : Option String) : String :=
  match comment with
  | some com =>
    if com.contains '\n' then
      "\n; " ++ com.replace "\n" "\n; " ++ "\n" ++ padR first 25
    else padR first 25 ++ " ; " ++ com
  | none => first

/-- The segment banner `Code::write` emits when a cell carries a segment. -/
def segBanner (seg : String) : String :=
  "\n; -------------------------- " ++ seg ++
    " -----------------------\n.segment \"" ++ seg ++ "\""

/-- The first pass of `Code::write`: render every cell, keeping only the
variable-map effect. -/
def prepassMap : List Statement → VarMap → VarMap
  | [], m => m
  | s :: rest, m => prepassMap rest (s.asm_code.to_write_string m).2

/-- Keys of the variable map in ascending order (itertools `sorted`). -/
def sortKeys (m : VarMap) : List Nat := List.insertionSort (· ≤ ·) (mapKeys m)

/-- One define line of `Code::write`. -/
def defineLine (v : Variable) : String :=
  ".define " ++ padR v.name 25 ++ " = " ++ v.value.toDisplay

/-- The define block of `Code::write`: one line per key of the map, in
ascending key order. -/
def defineLines (m : VarMap) : List String :=
  (sortKeys m).filterMap (fun k => (mapGet? m k).map defineLine)

/-- Test for the tombstone variant. -/
def AsmCode.isUsed : AsmCode → Bool
  | .used => true
  | _ => false

/-- The second pass of `Code::write`: per-cell emission, threading the
variable map; tombstones are skipped entirely. -/
def emitStmts : List Statement → VarMap → List String × VarMap
  | [], m => ([], m)
  | s :: rest, m =>
    if s.asm_code.isUsed then emitStmts rest m
    else
      ((match s.segment with
        | some sg => [segBanner sg]
        | none => []) ++
       (match s.label with
        | some l => [l ++ ":"]
        | none => []) ++
       [with_comment (s.asm_code.to_write_string m).1 s.comment] ++
       (emitStmts rest (s.asm_code.to_write_string m).2).1,
       (emitStmts rest (s.asm_code.to_write_string m).2).2)

/-- `Code::write` (src/disassemble/code.rs): each list element is the
payload of one writeln call, in emission order. -/
def Code.write (c : Code) : List String :=
  let m := prepassMap c.stmts c.addr_to_variable
  defineLines m ++ (emitStmts c.stmts m).1

/-- Display text of an error, matching the fmt impl. -/
def errText : DisassembleError → String
  | .parseError m => "parse error: " ++ m
  | .wrappedError m => m

/-- The error wrapping performed by the main loop of
`Disassembler::disassemble` when an opcode handler returns `Err`. -/
def wrapAt (e : DisassembleError) (offset : Nat) (o2a : Nat → Nat) : DisassembleError :=
  .wrappedError (errText e ++ " at offset $" ++ hex4L offset ++
    " (addr $" ++ hex4L (o2a offset) ++ ")")

/-- Reinterpretation of an i8 as a u16 (Rust `rel as u16`). -/
def relAsU16 (rel : Int) : Nat := (rel % 65536).toNat

/-- The branch-target computation of `Disassembler::branch_relative`:
`addr.wrapping_add(rel as u16) + 2` with u16 wrap-around semantics. -/
def branchTargetAddr (addr : Nat) (rel : Int) : Nat :=
  ((addr + relAsU16 rel) % 65536 + 2) % 65536

/-- `to_u16` (src/disassemble/disassembler.rs). -/
def to_u16 (arg0 arg1 : AsmCode) : Except DisassembleError Nat :=
  match arg0.to_u8 with
  | .error e => .error e
  | .ok l =>
    match arg1.to_u8 with
    | .error e => .error e
    | .ok h => .ok ((h <<< 8) ||| l)

/-- Rust `args[0]`-style access inside a decode closure; the closures are
always handed exactly the announced number of arguments, so the default is
unreachable. -/
def argAt (args : List AsmCode) (i : Nat) : AsmCode := args.getD i .used

/-- One-operand decode closure shape `|args| Ok(K(args[0].to_u8()?))`. -/
def arm1Fn (k : Nat → Instruction) (args : List AsmCode) :
    Except DisassembleError Instruction :=
  match (argAt args 0).to_u8 with
  | .error e => .error e
  | .ok v => .ok (k v)

/-- Two-operand decode closure shape `|args| Ok(K(to_u16(&args[0], &args[1])?))`. -/
def arm2Fn (k : Nat → Instruction) (args : List AsmCode) :
    Except DisassembleError Instruction :=
  match to_u16 (argAt args 0) (argAt args 1) with
  | .error e => .error e
  | .ok v => .ok (k v)

/-- Shape of one arm of the opcode match in `Disassembler::disassemble`. -/
inductive ArmTag where
  | arm0 (i : Instruction)
  | arm1 (k : Nat → Instruction)
  | arm2 (k : Nat → Instruction)
  | stop0 (i : Instruction)
  | jsrArm
  | jmpArm
  | branchArm (k : Int → String → Instruction)

/-- The fixed opcode decode table: the match of
`Disassembler::disassemble`, entry by entry in source order; `none` is the
catch-all arm for unrecognized opcodes. -/
def opTable : Nat → Option ArmTag
  | 0x02 => some (.stop0 .JAM)
  | 0x05 => some (.arm1 .ORA_ZP)
  | 0x06 => some (.arm1 .ASL_ZP)
  | 0x08 => some (.arm0 .PHP)
  | 0x09 => some (.arm1 .ORA_IMM)
  | 0x0a => some (.arm0 .ASL)
  | 0x10 => some (.branchArm .BPL_REL)
  | 0x12 => some (.stop0 .JAM)
  | 0x18 => some (.arm0 .CLC)
  | 0x20 => some .jsrArm
  | 0x22 => some (.stop0 .JAM)
  | 0x24 => some (.arm1 .BIT_ZP)
  | 0x25 => some (.arm1 .AND_ZP)
  | 0x28 => some (.arm0 .PLP)
  | 0x29 => some (.arm1 .AND_IMM)
  | 0x2a => some (.arm0 .ROL)
  | 0x30 => some (.branchArm .BMI_REL)
  | 0x32 => some (.stop0 .JAM)
  | 0x35 => some (.arm1 .AND_ZP_X)
  | 0x38 => some (.arm0 .SEC)
  | 0x40 => some (.stop0 .RTI)
  | 0x42 => some (.stop0 .JAM)
  | 0x45 => some (.arm1 .EOR_ZP)
  | 0x46 => some (.arm1 .LSR_ZP)
  | 0x48 => some (.arm0 .PHA)
  | 0x49 => some (.arm1 .EOR_IMM)
  | 0x4a => some (.arm0 .LSR)
  | 0x4c => some .jmpArm
  | 0x4d => some (.arm2 .EOR_ABS)
  | 0x52 => some (.stop0 .JAM)
  | 0x60 => some (.stop0 .RTS)
  | 0x62 => some (.stop0 .JAM)
  | 0x65 => some (.arm1 .ADC_ZP)
  | 0x66 => some (.arm1 .ROR_ZP)
  | 0x68 => some (.arm0 .PLA)
  | 0x69 => some (.arm1 .ADC_IMM)
  | 0x6a => some (.arm0 .ROR)
  | 0x6d => some (.arm2 .ADC_ABS)
  | 0x72 => some (.stop0 .JAM)
  | 0x78 => some (.arm0 .SEI)
  | 0x7d => some (.arm2 .ADC_ABS_X)
  | 0x84 => some (.arm1 .STY_ZP)
  | 0x85 => some (.arm1 .STA_ZP)
  | 0x86 => some (.arm1 .STX_ZP)
  | 0x88 => some (.arm0 .DEY)
  | 0x8a => some (.arm0 .TXA)
  | 0x8c => some (.arm2 .STY_ABS)
  | 0x8d => some (.arm2 .STA_ABS)
  | 0x8e => some (.arm2 .STX_ABS)
  | 0x90 => some (.branchArm .BCC_REL)
  | 0x91 => some (.arm1 .STA_IND_Y)
  | 0x92 => some (.stop0 .JAM)
  | 0x94 => some (.arm1 .STY_ZP_X)
  | 0x95 => some (.arm1 .STA_ZP_X)
  | 0x98 => some (.arm0 .TYA)
  | 0x99 => some (.arm2 .STA_ABS_Y)
  | 0x9a => some (.arm0 .TXS)
  | 0x9d => some (.arm2 .STA_ABS_X)
  | 0xa0 => some (.arm1 .LDY_IMM)
  | 0xa2 => some (.arm1 .LDX_IMM)
  | 0xa4 => some (.arm1 .LDY_ZP)
  | 0xa5 => some (.arm1 .LDA_ZP)
  | 0xa6 => some (.arm1 .LDX_ZP)
  | 0xa9 => some (.arm1 .LDA_IMM)
  | 0xaa => some (.arm0 .TAX)
  | 0xa8 => some (.arm0 .TAY)
  | 0xac => some (.arm2 .LDY_ABS)
  | 0xad => some (.arm2 .LDA_ABS)
  | 0xae => some (.arm2 .LDX_ABS)
  | 0xb0 => some (.branchArm .BCS_REL)
  | 0xb1 => some (.arm1 .LDA_IND_Y)
  | 0xb2 => some (.stop0 .JAM)
  | 0xb4 => some (.arm1 .LDY_ZP_X)
  | 0xb5 => some (.arm1 .LDA_ZP_X)
  | 0xb9 => some (.arm2 .LDA_ABS_Y)
  | 0xbc => some (.arm2 .LDY_ABS_X)
  | 0xbd => some (.arm2 .LDA_ABS_X)
  | 0xbe => some (.arm2 .LDX_ABS_Y)
  | 0xc0 => some (.arm1 .CPY_IMM)
  | 0xc4 => some (.arm1 .CPY_ZP)
  | 0xc5 => some (.arm1 .CMP_ZP)
  | 0xc6 => some (.arm1 .DEC_ZP)
  | 0xc8 => some (.arm0 .INY)
  | 0xc9 => some (.arm1 .CMP_IMM)
  | 0xca => some (.arm0 .DEX)
  | 0xcd => some (.arm2 .CMP_ABS)
  | 0xce => some (.arm2 .DEC_ABS)
  | 0xd0 => some (.branchArm .BNE_REL)
  | 0xd2 => some (.stop0 .JAM)
  | 0xd5 => some (.arm1 .CMP_ZP_X)
  | 0xd6 => some (.arm1 .DEC_ZP_X)
  | 0xd8 => some (.arm0 .CLD)
  | 0xd9 => some (.arm2 .CMP_ABS_Y)
  | 0xdd => some (.arm2 .CMP_ABS_X)
  | 0xde => some (.arm2 .DEC_ABS_X)
  | 0xe0 => some (.arm1 .CPX_IMM)
  | 0xe4 => some (.arm1 .CPX_ZP)
  | 0xe5 => some (.arm1 .SBC_ZP)
  | 0xe6 => some (.arm1 .INC_ZP)
  | 0xe8 => some (.arm0 .INX)
  | 0xe9 => some (.arm1 .SBC_IMM)
  | 0xee => some (.arm2 .INC_ABS)
  | 0xf0 => some (.branchArm .BEQ_REL)
  | 0xf2 => some (.stop0 .JAM)
  | 0xf6 => some (.arm1 .INC_ZP_X)
  | 0xfd => some (.arm2 .SBC_ABS_X)
  | 0xfe => some (.arm2 .INC_ABS_X)
  | _ => none

/-- The opcodes present in the decode table, in source order. -/
def handledOps : List Nat :=
  [0x02, 0x05, 0x06, 0x08, 0x09, 0x0a, 0x10, 0x12, 0x18, 0x20, 0x22, 0x24,
   0x25, 0x28, 0x29, 0x2a, 0x30, 0x32, 0x35, 0x38, 0x40, 0x42, 0x45, 0x46,
   0x48, 0x49, 0x4a, 0x4c, 0x4d, 0x52, 0x60, 0x62, 0x65, 0x66, 0x68, 0x69,
   0x6a, 0x6d, 0x72, 0x78, 0x7d, 0x84, 0x85, 0x86, 0x88, 0x8a, 0x8c, 0x8d,
   0x8e, 0x90, 0x91, 0x92, 0x94, 0x95, 0x98, 0x99, 0x9a, 0x9d, 0xa0, 0xa2,
   0xa4, 0xa5, 0xa6, 0xa9, 0xaa, 0xa8, 0xac, 0xad, 0xae, 0xb0, 0xb1, 0xb2,
   0xb4, 0xb5, 0xb9, 0xbc, 0xbd, 0xbe, 0xc0, 0xc4, 0xc5, 0xc6, 0xc8, 0xc9,
   0xca, 0xcd, 0xce, 0xd0, 0xd2, 0xd5, 0xd6, 0xd8, 0xd9, 0xdd, 0xde, 0xe0,
   0xe4, 0xe5, 0xe6, 0xe8, 0xe9, 0xee, 0xf0, 0xf2, 0xf6, 0xfd, 0xfe]

/-- Outcome of one opcode dispatch of the traversal loop: the catch-all
arm (which ends the path), or a handled arm's `Result` value together with
the `set_addr` assignment performed by the JMP arm. -/
inductive StepOutcome where
  | unknownOp
  | stepped (r : Except DisassembleError Nat) (sa : Option Nat)

mutual

/-- `Disassembler::disassemble` (src/disassemble/disassembler.rs): map the
address, attach the entry label, then run the decode loop.  Every engine
function consumes one unit of fuel per call; fuel exhaustion is an
embedding artifact (`fuelOut`), proved unreachable for sufficient fuel. -/
def disassemble : Nat → Nat → String → String → (Nat → Nat) → (Nat → Nat) → M Unit
  | 0, _, _, _, _, _ => fun _ => .fuelOut
  | f + 1, addr, name, pfx, a2o, o2a =>
    let offset := a2o addr
    mBind (Code.set_label offset (pfx ++ "_" ++ name)) (fun _ =>
    disasmLoop f pfx a2o o2a addr offset)
termination_by structural fuel _ _ _ _ _ => fuel

/-- The main loop of `Disassembler::disassemble`. -/
def disasmLoop : Nat → String → (Nat → Nat) → (Nat → Nat) → Nat → Nat → M Unit
  | 0, _, _, _, _, _ => fun _ => .fuelOut
  | f + 1, pfx, a2o, o2a, addr, offset =>
    mBind (Code.is_instruction offset) (fun isInstr =>
    if isInstr then mPure () else
    mBind (Code.get_u8 offset) (fun op =>
    mBind (stepOf f (opTable op) offset addr pfx a2o o2a) (fun so =>
    match so with
    | .unknownOp => mPure ()
    | .stepped (.error e) _ => mThrow (wrapAt e offset o2a)
    | .stepped (.ok size) sa =>
      if size = 0 then
        match sa with
        | some na => disasmLoop f pfx a2o o2a na (a2o na)
        | none => mPure ()
      else disasmLoop f pfx a2o o2a ((addr + size) % 65536) (offset + size))))
termination_by structural fuel _ _ _ _ _ => fuel

/-- Dispatch on one arm of the decode table. -/
def stepOf : Nat → Option ArmTag → Nat → Nat → String → (Nat → Nat) → (Nat → Nat) →
    M StepOutcome
  | 0, _, _, _, _, _, _ => fun _ => .fuelOut
  | _ + 1, none, _, _, _, _, _ => mPure .unknownOp
  | _ + 1, some (.arm0 i), offset, _, _, _, _ =>
    mBind (tryM (Code.replace_with_instr offset 0 (fun _ => .ok i))) (fun r =>
    mPure (.stepped r none))
  | _ + 1, some (.arm1 k), offset, _, _, _, _ =>
    mBind (tryM (Code.replace_with_instr offset 1 (arm1Fn k))) (fun r =>
    mPure (.stepped r none))
  | _ + 1, some (.arm2 k), offset, _, _, _, _ =>
    mBind (tryM (Code.replace_with_instr offset 2 (arm2Fn k))) (fun r =>
    mPure (.stepped r none))
  | _ + 1, some (.stop0 i), offset, _, _, _, _ =>
    mBind (Code.replace_with_instr offset 0 (fun _ => .ok i)) (fun _ =>
    mPure (.stepped (.ok 0) none))
  | f + 1, some .jsrArm, offset, _, pfx, a2o, o2a =>
    mBind (Code.get_u8 (offset + 1)) (fun l =>
    mBind (Code.get_u8 (offset + 2)) (fun h =>
    let jsr_addr := (h <<< 8) ||| l
    let lab := pfx ++ "_" ++ hex4L jsr_addr
    mBind (tryM (Code.replace_with_instr offset 2
        (fun _ => .ok (.JSR_ABS jsr_addr lab)))) (fun r =>
    mBind (disassemble f jsr_addr (hex4L jsr_addr) pfx a2o o2a) (fun _ =>
    mPure (.stepped r none)))))
  | _ + 1, some .jmpArm, offset, _, pfx, _, _ =>
    mBind (Code.get_u8 (offset + 1)) (fun l =>
    mBind (Code.get_u8 (offset + 2)) (fun h =>
    let jmp_addr := (h <<< 8) ||| l
    let lab := pfx ++ "_" ++ hex4L jmp_addr
    mBind (Code.replace_with_instr offset 2
        (fun _ => .ok (.JMP_ABS jmp_addr lab))) (fun _ =>
    mPure (.stepped (.ok 0) (some jmp_addr)))))
  | f + 1, some (.branchArm k), offset, addr, pfx, a2o, o2a =>
    mBind (branch_relative f offset addr pfx a2o o2a k) (fun r =>
    mPure (.stepped r none))
termination_by structural fuel _ _ _ _ _ _ => fuel

/-- `Disassembler::branch_relative`: reads the displacement, installs the
branch instruction, then recursively explores the target. -/
def branch_relative : Nat → Nat → Nat → String → (Nat → Nat) → (Nat → Nat) →
    (Int → String → Instruction) → M (Except DisassembleError Nat)
  | 0, _, _, _, _, _, _ => fun _ => .fuelOut
  | f + 1, offset, addr, pfx, a2o, o2a, k =>
    mBind (Code.get_i8 (offset + 1)) (fun rel =>
    let new_addr := branchTargetAddr addr rel
    let lab := pfx ++ "_" ++ hex4L new_addr
    mBind (tryM (Code.replace_with_instr offset 1 (fun _ => .ok (k rel lab)))) (fun result =>
    mBind (disassemble f new_addr (hex4L new_addr) pfx a2o o2a) (fun _ =>
    mPure result)))
termination_by structural fuel _ _ _ _ _ _ => fuel

end

/-- The `addr_to_offset_fn` closure of
`NesDisassembler::disassemble_entry_points`; `Nat` subtraction models only
addresses at or above the PRG-ROM load address 0x8000 (below it the Rust
subtraction aborts). -/
def nesAddrToOffset (a : Nat) : Nat :=
  let addr := a - 0x8000 + 16
  if addr > 16384 then addr - 16384 else addr

/-- The `offset_to_addr_fn` closure of
`NesDisassembler::disassemble_entry_points` (cast to u16 modelled as
mod 2^16). -/
def nesOffsetToAddr (offset : Nat) : Nat := (offset - 16 + 0x8000) % 65536

/-- The asm code held at one offset of the store. -/
def cellAsm (c : Code) (p : Nat) : Option AsmCode :=
  (c.stmts.get? p).map Statement.asm_code

/-- A decoded range is well formed when its first cell holds an
instruction and every other cell of the range is a tombstone. -/
def decodedRangeOk (c : Code) (start len : Nat) : Prop :=
  (∃ i, cellAsm c start = some (.instruction i)) ∧
  ∀ k, 0 < k → k < len → cellAsm c (start + k) = some .used

/-- Byte-like cells: the ones `AsmCode::to_u8` accepts. -/
def AsmCode.isByteLike : AsmCode → Bool
  | .dataHexU8 _ => true
  | .dataU8 _ => true
  | .dataBinaryU8 _ => true
  | _ => false

/-- Number of byte-like cells of the store; the decode measure. -/
def byteCount (c : Code) : Nat :=
  c.stmts.countP (fun s => s.asm_code.isByteLike)

/-- How a successful traversal step evolves the store: same length,
instruction cells and tombstones untouched, byte-like cells not created. -/
def Evolves (c c2 : Code) : Prop :=
  c2.stmts.length = c.stmts.length ∧
  (∀ p i, cellAsm c p = some (.instruction i) → cellAsm c2 p = some (.instruction i)) ∧
  (∀ p, cellAsm c p = some .used → cellAsm c2 p = some .used) ∧
  byteCount c2 ≤ byteCount c

/-- Addressing-mode families whose rendering consults the variable map. -/
inductive OpndKind where
  | zp
  | zpx
  | abs
  | absx
  | absy
deriving DecidableEq

/-- Rendering suffix of each family. -/
def suffixOf : OpndKind → String
  | .zp => ""
  | .zpx => ",x"
  | .abs => ""
  | .absx => ",x"
  | .absy => ",y"

/-- The variable synthesized for an unbound operand address of each family. -/
def synthVar : OpndKind → Nat → Variable
  | .zp, a => ⟨"ZP_" ++ hex2U a, .U8 a⟩
  | .zpx, a => ⟨"ZP_" ++ hex2U a, .U8 a⟩
  | .abs, a => ⟨"ABS_" ++ hex4U a, .U16 a⟩
  | .absx, a => ⟨"ABS_" ++ hex4U a, .U16 a⟩
  | .absy, a => ⟨"ABS_" ++ hex4U a, .U16 a⟩

/-- Mnemonic, addressing family and operand address of the instructions
whose rendering consults the variable map (readback of
`Instruction::to_write_string`); `none` for every other instruction. -/
def instrParts : Instruction → Option (String × OpndKind × Nat)
  | .ORA_ZP v => some ("ora", .zp, v)
  | .ASL_ZP v => some ("asl", .zp, v)
  | .BIT_ZP v => some ("bit", .zp, v)
  | .AND_ZP v => some ("and", .zp, v)
  | .AND_ZP_X v => some ("and", .zpx, v)
  | .EOR_ZP v => some ("eor", .zp, v)
  | .LSR_ZP v => some ("lsr", .zp, v)
  | .EOR_ABS v => some ("eor", .abs, v)
  | .ADC_ZP v => some ("adc", .zp, v)
  | .ROR_ZP v => some ("ror", .zp, v)
  | .ADC_ABS v => some ("adc", .abs, v)
  | .ADC_ABS_X v => some ("adc", .absx, v)
  | .STY_ZP v => some ("sty", .zp, v)
  | .STA_ZP v => some ("sta", .zp, v)
  | .STX_ZP v => some ("stx", .zp, v)
  | .STY_ABS v => some ("sty", .abs, v)
  | .STA_ABS v => some ("sta", .abs, v)
  | .STX_ABS v => some ("stx", .abs, v)
  | .STY_ZP_X v => some ("sty", .zpx, v)
  | .STA_ZP_X v => some ("sta", .zpx, v)
  | .STA_ABS_Y v => some ("sta", .absy, v)
  | .STA_ABS_X v => some ("sta", .absx, v)
  | .LDY_ZP v => some ("ldy", .zp, v)
  | .LDA_ZP v => some ("lda", .zp, v)
  | .LDX_ZP v => some ("ldx", .zp, v)
  | .LDY_ZP_X v => some ("ldy", .zpx, v)
  | .LDA_ZP_X v => some ("lda", .zpx, v)
  | .LDA_ABS_Y v => some ("lda", .absy, v)
  | .LDY_ABS_X v => some ("ldy", .absx, v)
  | .LDA_ABS_X v => some ("lda", .absx, v)
  | .LDX_ABS_Y v => some ("ldx", .absy, v)
  | .LDY_ABS v => some ("ldy", .abs, v)
  | .LDA_ABS v => some ("lda", .abs, v)
  | .LDX_ABS v => some ("ldx", .abs, v)
  | .CPY_ZP v => some ("cpy", .zp, v)
  | .CMP_ZP v => some ("cmp", .zp, v)
  | .DEC_ZP v => some ("dec", .zp, v)
  | .CMP_ABS v => some ("cmp", .abs, v)
  | .DEC_ABS v => some ("dec", .abs, v)
  | .CMP_ZP_X v => some ("dec", .zpx, v)
  | .DEC_ZP_X v => some ("dec", .zpx, v)
  | .CMP_ABS_Y v => some ("cmp", .absy, v)
  | .CMP_ABS_X v => some ("cmp", .absx, v)
  | .DEC_ABS_X v => some ("dec", .absx, v)
  | .CPX_ZP v => some ("cpx", .zp, v)
  | .SBC_ZP v => some ("sbc", .zp, v)
  | .INC_ZP v => some ("inc", .zp, v)
  | .INC_ABS v => some ("inc", .abs, v)
  | .INC_ZP_X v => some ("inc", .zpx, v)
  | .SBC_ABS_X v => some ("sbc", .absx, v)
  | .INC_ABS_X v => some ("inc", .absx, v)
  | _ => none

/-- The operand addresses whose bindings a cell's rendering consults. -/
def needsOf : AsmCode → List Nat
  | .instruction i =>
    match instrParts i with
    | some (_, _, a) => [a]
    | none => []
  | _ => []

/-- The variable map after the first pass of `Code::write`. -/
def finalMap (c : Code) : VarMap := prepassMap c.stmts c.addr_to_variable

/-- The lines one cell contributes to the output of `Code::write`, when
rendered against a fixed variable map. -/
def cellBlock (m : VarMap) (s : Statement) : List String :=
  if s.asm_code.isUsed then []
  else
    (match s.segment with
      | some sg => [segBanner sg]
      | none => []) ++
    (match s.label with
      | some l => [l ++ ":"]
      | none => []) ++
    [with_comment (s.asm_code.to_write_string m).1 s.comment]

/-- The sixteen uppercase hex digit characters. -/
def upperHexDigits : List Char :=
  ['0', '1', '2', '3', '4', '5', '6', '7', '8', '9', 'A', 'B', 'C', 'D', 'E', 'F']

/-- Effect of rendering one cell on the variable map: unchanged, or one
new binding at a previously unbound key, with a ZP or ABS synthesized
name. -/
def RenderStep (m m2 : VarMap) : Prop :=
  m2 = m ∨ ∃ k, mapGet? m k = none ∧
    (m2 = mapInsert m k (synthVar .zp k) ∨ m2 = mapInsert m k (synthVar .abs k))

/-- Evolution property of the entry function at a given fuel. -/
def DisasmEv (fuel : Nat) : Prop :=
  ∀ (addr : Nat) (name pfx : String) (a2o o2a : Nat → Nat) (c : Code) (u : Unit) (c2 : Code),
    disassemble fuel addr name pfx a2o o2a c = .ok (u, c2) → Evolves c c2

/-- Evolution property of the decode loop at a given fuel. -/
def LoopEv (fuel : Nat) : Prop :=
  ∀ (pfx : String) (a2o o2a : Nat → Nat) (addr offset : Nat) (c : Code) (u : Unit) (c2 : Code),
    disasmLoop fuel pfx a2o o2a addr offset c = .ok (u, c2) → Evolves c c2

/-- Evolution property of one decode-table dispatch at a given fuel: when
the dispatched cell is byte-like, the store evolves; when the arm reports
a successful decode, the byte count strictly decreases. -/
def StepEv (fuel : Nat) : Prop :=
  ∀ (t : Option ArmTag) (offset addr : Nat) (pfx : String) (a2o o2a : Nat → Nat)
    (c : Code) (so : StepOutcome) (c2 : Code) (s : Statement),
    c.stmts.get? offset = some s → s.asm_code.isByteLike = true →
    stepOf fuel t offset addr pfx a2o o2a c = .ok (so, c2) →
    Evolves c c2 ∧
    ∀ size sa, so = .stepped (.ok size) sa → byteCount c2 < byteCount c

/-- Evolution property of the branch handler at a given fuel. -/
def BranchEv (fuel : Nat) : Prop :=
  ∀ (offset addr : Nat) (pfx : String) (a2o o2a : Nat → Nat)
    (k : Int → String → Instruction) (c : Code) (r : Except DisassembleError Nat) (c2 : Code)
    (s : Statement),
    c.stmts.get? offset = some s → s.asm_code.isByteLike = true →
    branch_relative fuel offset addr pfx a2o o2a k c = .ok (r, c2) →
    Evolves c c2 ∧ ∀ size, r = .ok size → byteCount c2 < byteCount c

/-- Fuel sufficiency for the entry function: four fuel units per
remaining byte-like cell, plus two. -/
def SuffD (fuel : Nat) : Prop :=
  ∀ (addr : Nat) (name pfx : String) (a2o o2a : Nat → Nat) (c : Code),
    4 * byteCount c + 2 ≤ fuel →
    disassemble fuel addr name pfx a2o o2a c ≠ .fuelOut

/-- Fuel sufficiency for the decode loop. -/
def SuffL (fuel : Nat) : Prop :=
  ∀ (pfx : String) (a2o o2a : Nat → Nat) (addr offset : Nat) (c : Code),
    4 * byteCount c + 1 ≤ fuel →
    disasmLoop fuel pfx a2o o2a addr offset c ≠ .fuelOut

/-- Fuel sufficiency for one decode-table dispatch on a byte-like cell. -/
def SuffS (fuel : Nat) : Prop :=
  ∀ (t : Option ArmTag) (offset addr : Nat) (pfx : String) (a2o o2a : Nat → Nat)
    (c : Code) (s : Statement),
    c.stmts.get? offset = some s → s.asm_code.isByteLike = true →
    4 * byteCount c ≤ fuel →
    stepOf fuel t offset addr pfx a2o o2a c ≠ .fuelOut

/-- Fuel sufficiency for the branch handler on a byte-like cell. -/
def SuffB (fuel : Nat) : Prop :=
  ∀ (offset addr : Nat) (pfx : String) (a2o o2a : Nat → Nat)
    (k : Int → String → Instruction) (c : Code) (s : Statement),
    c.stmts.get? offset = some s → s.asm_code.isByteLike = true →
    4 * byteCount c - 1 ≤ fuel →
    branch_relative fuel offset addr pfx a2o o2a k c ≠ .fuelOut

set_option maxRecDepth 100000

theorem mBind_eq_ok {α β : Type} {x : M α} {f : α → M β} {c : Code} {r : β × Code} :
    mBind x f c = .ok r ↔ ∃ a c2, x c = .ok (a, c2) ∧ f a c2 = .ok r := by
  unfold mBind
  cases hx : x c with
  | ok p =>
    constructor
    · intro h
      exact ⟨p.1, p.2, rfl, h⟩
    · rintro ⟨a, c2, h1, h2⟩
      cases h1
      exact h2
  | err e => simp
  | crash => simp
  | fuelOut => simp

theorem mBind_eq_fuelOut {α β : Type} {x : M α} {f : α → M β} {c : Code} :
    mBind x f c = .fuelOut ↔
      x c = .fuelOut ∨ ∃ a c2, x c = .ok (a, c2) ∧ f a c2 = .fuelOut := by
  unfold mBind
  cases hx : x c with
  | ok p =>
    constructor
    · intro h
      exact Or.inr ⟨p.1, p.2, rfl, h⟩
    · rintro (h | ⟨a, c2, h1, h2⟩)
      · cases h
      · cases h1
        exact h2
  | err e => simp
  | crash => simp
  | fuelOut => simp

/-- C1: for every conditional-branch opcode decoded at address `a` with
signed 8-bit displacement `d`, the resolved target address computed by
`branch_relative` (used both for the recursive exploration and for the
generated label text) equals `(a + 2 + d) mod 2^16`. -/
theorem C1_branch_target (addr : Nat) (d : Int)
    (_h1 : addr < 65536) (h2 : -128 ≤ d) (h3 : d < 128) :
    (branchTargetAddr addr d : Int) = ((addr : Int) + 2 + d) % 65536 := by
  unfold branchTargetAddr relAsU16
  omega

theorem C1_branch_target_witness :
    (0x8000 : Nat) < 65536 ∧ (-128 : Int) ≤ -2 ∧ (-2 : Int) < 128 ∧
    (branchTargetAddr 0x8000 (-2) : Int) = ((0x8000 : Int) + 2 + (-2)) % 65536 :=
  ⟨by decide, by decide, by decide,
   C1_branch_target 0x8000 (-2) (by decide) (by decide) (by decide)⟩

/-- C4 counterexample: `Code::take` against a cell already holding an
instruction returns `Ok` with the old statement (the cell is merely
tombstoned); it does not fail with a decode error as the claim states. -/
theorem C4_counter :
    Code.take 0 ⟨[⟨.instruction .RTS, none, none, none⟩], []⟩ =
      RResult.ok (⟨.instruction .RTS, none, none, none⟩, ⟨[usedStatement], []⟩) := by
  rfl

/-- C4 (amended): peeking (`get_u8`/`get_i8`) at a cell holding an
instruction or tombstone fails with a decode error, while `take` succeeds
unconditionally on any in-bounds cell, tombstoning it and returning its
old content; the reinterpretation error for consumed input surfaces only
when the taken content is later converted with `to_u8`. -/
theorem C4_amended (c : Code) (offset : Nat) (s : Statement)
    (hs : c.stmts.get? offset = some s)
    (hnb : s.asm_code = .used ∨ ∃ i, s.asm_code = .instruction i) :
    (∃ e, Code.get_u8 offset c = .err e) ∧
    (∃ e, Code.get_i8 offset c = .err e) ∧
    Code.take offset c = .ok (s, ⟨c.stmts.set offset usedStatement, c.addr_to_variable⟩) ∧
    (∃ e, s.asm_code.to_u8 = .error e) := by
  have herr : ∃ e, s.asm_code.to_u8 = .error e := by
    rcases hnb with h | ⟨i, h⟩ <;> rw [h] <;> exact ⟨_, rfl⟩
  obtain ⟨e, he⟩ := herr
  have hg : Code.get_u8 offset c = .err e := by
    simp only [Code.get_u8, hs, he]
  refine ⟨⟨e, hg⟩, ⟨e, ?_⟩, ?_, ⟨e, he⟩⟩
  · simp only [Code.get_i8, mBind, hg]
  · simp only [Code.take, hs]

theorem C4_amended_witness :
    (⟨[⟨.used, none, none, none⟩], []⟩ : Code).stmts.get? 0 =
        some ⟨.used, none, none, none⟩ ∧
    (∃ e, Code.get_u8 0 (⟨[⟨.used, none, none, none⟩], []⟩ : Code) = .err e) ∧
    (∃ e, Code.get_i8 0 (⟨[⟨.used, none, none, none⟩], []⟩ : Code) = .err e) :=
  ⟨rfl,
   (C4_amended ⟨[⟨.used, none, none, none⟩], []⟩ 0 ⟨.used, none, none, none⟩ rfl
     (Or.inl rfl)).1,
   (C4_amended ⟨[⟨.used, none, none, none⟩], []⟩ 0 ⟨.used, none, none, none⟩ rfl
     (Or.inl rfl)).2.1⟩

/-- C10: every Store primitive indexes the cell array unchecked, so an
offset at or past the end of the input aborts the process (crash) instead
of producing an error value; concretely, a traversal whose jump target
maps past the end of the ROM image crashes (here with the NES
address-to-offset mapping and a jump to address 0x9000 in a 19-byte
image). -/
theorem C10_unchecked_crash :
    (∀ (c : Code) (offset : Nat) (s : Statement), c.stmts.length ≤ offset →
        Code.get_u8 offset c = .crash ∧ Code.take offset c = .crash ∧
        Code.set offset s c = .crash ∧ Code.is_instruction offset c = .crash) ∧
    disassemble 4 0x8000 "reset" "prgrom0" nesAddrToOffset nesOffsetToAddr
      (Code.new (List.replicate 16 0 ++ [0x4c, 0x00, 0x90])) = .crash := by
  constructor
  · intro c offset s h
    have hg : c.stmts.get? offset = none := List.get?_eq_none.mpr h
    refine ⟨?_, ?_, ?_, ?_⟩
    · simp only [Code.get_u8, hg]
    · simp only [Code.take, hg]
    · simp only [Code.set, hg]
    · simp only [Code.is_instruction, hg]
  · rfl

theorem C10_witness :
    (Code.new []).stmts.length ≤ 3 ∧ Code.get_u8 3 (Code.new []) = .crash :=
  ⟨by decide, (C10_unchecked_crash.1 (Code.new []) 3 usedStatement (by decide)).1⟩

/-- C3 counterexample: re-invoking the traversal (with a different entry
name) on an address whose offset already holds an instruction modifies the
cell's label, overwriting p_x with p_y, so the claim that no cell
metadata (including labels) changes is false. -/
theorem C3_counter :
    disassemble 2 0 "y" "p" (fun a => a) (fun o => o)
      ⟨[⟨.instruction .RTS, none, none, some "p_x"⟩], []⟩ =
      RResult.ok ((), ⟨[⟨.instruction .RTS, none, none, some "p_y"⟩], []⟩) ∧
    some "p_y" ≠ some "p_x" :=
  ⟨by rfl, by decide⟩

/-- C3 (amended): re-invoking the traversal on an address whose mapped
offset already holds an instruction performs no decoding work: the run
succeeds and the only change to the store is that the start offset's
label is re-attached as prefix_name (possibly overwriting an existing
label); in particular no cell's classification changes and no variable is
registered. -/
theorem C3_amended (fuel addr : Nat) (name pfx : String) (a2o o2a : Nat → Nat)
    (c : Code) (s : Statement) (i : Instruction)
    (hf : 2 ≤ fuel) (hs : c.stmts.get? (a2o addr) = some s)
    (hi : s.asm_code = .instruction i) :
    disassemble fuel addr name pfx a2o o2a c =
      .ok ((), ⟨c.stmts.set (a2o addr) { s with label := some (pfx ++ "_" ++ name) },
                c.addr_to_variable⟩) ∧
    (∀ p, cellAsm ⟨c.stmts.set (a2o addr) { s with label := some (pfx ++ "_" ++ name) },
                   c.addr_to_variable⟩ p = cellAsm c p) := by
  obtain ⟨f, rfl⟩ : ∃ f, fuel = f + 2 := ⟨fuel - 2, by omega⟩
  have hlt : a2o addr < c.stmts.length := by
    rcases Nat.lt_or_ge (a2o addr) c.stmts.length with h | h
    · exact h
    · rw [List.get?_eq_none.mpr h] at hs
      cases hs
  have hlt2 : a2o addr <
      (c.stmts.set (a2o addr) { s with label := some (pfx ++ "_" ++ name) }).length := by
    rw [List.length_set]
    exact hlt
  constructor
  · show disassemble (f + 1 + 1) addr name pfx a2o o2a c = _
    simp only [disassemble, mBind, Code.set_label, hs]
    simp only [disasmLoop, mBind, Code.is_instruction,
      List.get?_set_eq_of_lt _ hlt, hi, AsmCode.isInstr]
    rfl
  · intro p
    unfold cellAsm
    rcases eq_or_ne p (a2o addr) with rfl | hne
    · rw [List.get?_set_eq_of_lt _ hlt, hs]
      rfl
    · rw [List.get?_set_ne _ _ (Ne.symm hne)]

theorem C3_amended_witness :
    (2 ≤ 2) ∧
    ((⟨[⟨.instruction .RTS, none, none, some "p_x"⟩], []⟩ : Code).stmts.get? 0 =
      some ⟨.instruction .RTS, none, none, some "p_x"⟩) ∧
    disassemble 2 0 "y" "p" (fun a => a) (fun o => o)
      ⟨[⟨.instruction .RTS, none, none, some "p_x"⟩], []⟩ =
      .ok ((), ⟨[⟨.instruction .RTS, none, none, some "p_y"⟩], []⟩) := by
  refine ⟨by decide, rfl, ?_⟩
  have h := (C3_amended 2 0 "y" "p" (fun a => a) (fun o => o)
    ⟨[⟨.instruction .RTS, none, none, some "p_x"⟩], []⟩
    ⟨.instruction .RTS, none, none, some "p_x"⟩ .RTS (by decide) rfl rfl).1
  exact h

/-- C5: an opcode byte absent from the decode table stops only the current
path: the loop returns Ok (not an error) with the store completely
unchanged, so all cells decoded on other paths keep their classification
and the run still produces the full partial listing. -/
theorem C5_unknown_opcode (f : Nat) (pfx : String) (a2o o2a : Nat → Nat)
    (addr offset : Nat) (c : Code) (v : Nat) (s : Statement)
    (hget : c.stmts.get? offset = some s)
    (htu : s.asm_code.to_u8 = .ok v)
    (ht : opTable v = none) :
    disasmLoop (f + 2) pfx a2o o2a addr offset c = .ok ((), c) := by
  have hni : s.asm_code.isInstr = false := by
    cases hasm : s.asm_code <;> rw [hasm] at htu <;>
      first
        | rfl
        | exact (Except.noConfusion htu)
  have hii : Code.is_instruction offset c = .ok (false, c) := by
    simp only [Code.is_instruction, hget, hni]
  have hgu : Code.get_u8 offset c = .ok (v, c) := by
    simp only [Code.get_u8, hget, htu]
  have hso : stepOf (f + 1) (opTable v) offset addr pfx a2o o2a c = .ok (.unknownOp, c) := by
    rw [ht]
    rfl
  show disasmLoop (f + 1 + 1) pfx a2o o2a addr offset c = .ok ((), c)
  simp [disasmLoop, mBind, hii, hgu, hso, mPure]

theorem C5_unknown_opcode_witness :
    ((Code.new [0x00]).stmts.get? 0 = some ⟨.dataHexU8 0, none, none, none⟩) ∧
    ((AsmCode.dataHexU8 0).to_u8 = .ok 0) ∧
    (opTable 0 = none) ∧
    disasmLoop 2 "p" (fun a => a) (fun o => o) 0 0 (Code.new [0x00]) =
      .ok ((), Code.new [0x00]) := by
  refine ⟨rfl, rfl, rfl, ?_⟩
  exact C5_unknown_opcode 0 "p" (fun a => a) (fun o => o) 0 0 (Code.new [0x00]) 0
    ⟨.dataHexU8 0, none, none, none⟩ rfl rfl rfl

/-- C6: evaluation at the failing input: after decoding the absolute jump
at offset 0 (target address 0x8004, offset 4) the traversal continues the
loop directly at the target and never attaches a label there: the target
cell's label stays none even though the jump instruction's rendered text
references the synthesized label p_8004; the fall-through byte at offset 3
is left undecoded. -/
theorem C6_jmp_no_target_label :
    disassemble 9 0x8000 "e" "p" (fun a => a - 0x8000) (fun o => o + 0x8000)
      (Code.new [0x4c, 0x04, 0x80, 0x60, 0x60]) =
    RResult.ok ((), ⟨[⟨.instruction (.JMP_ABS 0x8004 "p_8004"), none, none, some "p_e"⟩,
      usedStatement, usedStatement,
      ⟨.dataHexU8 0x60, none, none, none⟩,
      ⟨.instruction .RTS, none, none, none⟩], []⟩) := by
  rfl

theorem mapGet?_insert_self (m : VarMap) (k : Nat) (v : Variable) :
    mapGet? (mapInsert m k v) k = some v := by
  induction m with
  | nil => simp [mapInsert, mapGet?]
  | cons p rest ih =>
    by_cases h : p.1 = k
    · simp [mapInsert, h, mapGet?]
    · simp [mapInsert, h, mapGet?, ih]

theorem mapGet?_insert_ne (m : VarMap) (k : Nat) (v : Variable) (a : Nat) (h : a ≠ k) :
    mapGet? (mapInsert m k v) a = mapGet? m a := by
  induction m with
  | nil =>
    simp only [mapInsert, mapGet?]
    rw [if_neg (by omega)]
  | cons p rest ih =>
    by_cases hp : p.1 = k
    · simp only [mapInsert, if_pos hp, mapGet?]
      rw [if_neg (by omega), if_neg (by omega)]
    · simp only [mapInsert, if_neg hp, mapGet?]
      by_cases hpa : p.1 = a
      · rw [if_pos hpa, if_pos hpa]
      · rw [if_neg hpa, if_neg hpa]
        exact ih

theorem mapKeys_insert (m : VarMap) (k : Nat) (v : Variable) :
    mapKeys (mapInsert m k v) = if (mapGet? m k).isSome then mapKeys m else mapKeys m ++ [k] := by
  induction m with
  | nil => simp [mapInsert, mapGet?, mapKeys]
  | cons p rest ih =>
    by_cases h : p.1 = k
    · simp [mapInsert, h, mapGet?, mapKeys]
    · simp only [mapInsert, if_neg h, mapKeys, List.map_cons]
      have hg : mapGet? (p :: rest) k = mapGet? rest k := by
        show (if p.1 = k then some p.2 else mapGet? rest k) = mapGet? rest k
        rw [if_neg h]
      rw [hg]
      unfold mapKeys at ih
      rw [ih]
      by_cases hs : (mapGet? rest k).isSome
      · rw [if_pos hs, if_pos hs]
      · rw [if_neg hs, if_neg hs]
        simp

theorem mapGet?_isSome_of_mem_keys (m : VarMap) (k : Nat) (h : k ∈ mapKeys m) :
    (mapGet? m k).isSome := by
  induction m with
  | nil => simp [mapKeys] at h
  | cons p rest ih =>
    simp only [mapKeys, List.map_cons, List.mem_cons] at h
    rcases h with h | h
    · simp [mapGet?, h.symm]
    · unfold mapGet?
      by_cases hp : p.1 = k
      · simp [hp]
      · simp only [if_neg hp]
        exact ih h

theorem mapKeys_insert_nodup (m : VarMap) (k : Nat) (v : Variable)
    (h : (mapKeys m).Nodup) : (mapKeys (mapInsert m k v)).Nodup := by
  rw [mapKeys_insert]
  by_cases hs : (mapGet? m k).isSome
  · rw [if_pos hs]
    exact h
  · rw [if_neg hs]
    rw [List.nodup_append]
    refine ⟨h, List.nodup_singleton k, ?_⟩
    intro a ha hb
    simp only [List.mem_singleton] at hb
    subst hb
    exact hs (mapGet?_isSome_of_mem_keys m a ha)

theorem tws_zp_step (mn : String) (a : Nat) (m : VarMap) :
    RenderStep m (to_write_string_zp mn a m).2 := by
  unfold to_write_string_zp
  cases h : mapGet? m a with
  | some var => exact Or.inl rfl
  | none => exact Or.inr ⟨a, h, Or.inl rfl⟩

theorem tws_zpx_step (mn : String) (a : Nat) (m : VarMap) :
    RenderStep m (to_write_string_zp_x mn a m).2 := by
  unfold to_write_string_zp_x
  cases h : mapGet? m a with
  | some var => exact Or.inl rfl
  | none => exact Or.inr ⟨a, h, Or.inl rfl⟩

theorem tws_abs_step (mn : String) (a : Nat) (m : VarMap) :
    RenderStep m (to_write_string_abs mn a m).2 := by
  unfold to_write_string_abs
  cases h : mapGet? m a with
  | some var => exact Or.inl rfl
  | none => exact Or.inr ⟨a, h, Or.inr rfl⟩

theorem tws_absx_step (mn : String) (a : Nat) (m : VarMap) :
    RenderStep m (to_write_string_abs_x mn a m).2 := by
  unfold to_write_string_abs_x
  cases h : mapGet? m a with
  | some var => exact Or.inl rfl
  | none => exact Or.inr ⟨a, h, Or.inr rfl⟩

theorem tws_absy_step (mn : String) (a : Nat) (m : VarMap) :
    RenderStep m (to_write_string_abs_y mn a m).2 := by
  unfold to_write_string_abs_y
  cases h : mapGet? m a with
  | some var => exact Or.inl rfl
  | none => exact Or.inr ⟨a, h, Or.inr rfl⟩

theorem instr_render_step (i : Instruction) (m : VarMap) :
    RenderStep m (i.to_write_string m).2 := by
  cases i <;>
    first
      | exact Or.inl rfl
      | exact tws_zp_step _ _ m
      | exact tws_zpx_step _ _ m
      | exact tws_abs_step _ _ m
      | exact tws_absx_step _ _ m
      | exact tws_absy_step _ _ m

theorem asm_render_step (x : AsmCode) (m : VarMap) :
    RenderStep m (x.to_write_string m).2 := by
  cases x <;> first | exact Or.inl rfl | exact instr_render_step _ m

theorem RenderStep.preserve {m m2 : VarMap} (h : RenderStep m m2) {a : Nat} {v : Variable}
    (hv : mapGet? m a = some v) : mapGet? m2 a = some v := by
  rcases h with rfl | ⟨k, hk, hins⟩
  · exact hv
  · have hne : a ≠ k := by
      intro heq
      rw [heq, hk] at hv
      cases hv
    rcases hins with rfl | rfl <;> rw [mapGet?_insert_ne _ _ _ _ hne] <;> exact hv

theorem RenderStep.new_shape {m m2 : VarMap} (h : RenderStep m m2) {a : Nat} {v : Variable}
    (ha : mapGet? m a = none) (hv : mapGet? m2 a = some v) :
    v = synthVar .zp a ∨ v = synthVar .abs a := by
  rcases h with rfl | ⟨k, hk, hins⟩
  · rw [ha] at hv
    cases hv
  · by_cases hak : a = k
    · subst hak
      rcases hins with rfl | rfl
      · rw [mapGet?_insert_self] at hv
        cases hv
        exact Or.inl rfl
      · rw [mapGet?_insert_self] at hv
        cases hv
        exact Or.inr rfl
    · rcases hins with rfl | rfl <;> rw [mapGet?_insert_ne _ _ _ _ hak] at hv <;>
        rw [ha] at hv <;> cases hv

theorem prepass_preserve (L : List Statement) (m : VarMap) {a : Nat} {v : Variable}
    (hv : mapGet? m a = some v) : mapGet? (prepassMap L m) a = some v := by
  induction L generalizing m with
  | nil => exact hv
  | cons s rest ih =>
    exact ih _ ((asm_render_step s.asm_code m).preserve hv)

theorem prepass_new_shape (L : List Statement) (m : VarMap) {a : Nat} {v : Variable}
    (ha : mapGet? m a = none) (hv : mapGet? (prepassMap L m) a = some v) :
    v = synthVar .zp a ∨ v = synthVar .abs a := by
  induction L generalizing m with
  | nil =>
    rw [prepassMap, ha] at hv
    cases hv
  | cons s rest ih =>
    cases h1 : mapGet? (s.asm_code.to_write_string m).2 a with
    | none => exact ih _ h1 hv
    | some w =>
      have hw := (asm_render_step s.asm_code m).new_shape ha h1
      have h2 : mapGet? (prepassMap rest (s.asm_code.to_write_string m).2) a = some w :=
        prepass_preserve rest _ h1
      have hv2 : mapGet? (prepassMap rest (s.asm_code.to_write_string m).2) a = some v := hv
      rw [hv2] at h2
      cases h2
      exact hw

theorem tws_zp_boundS (mn : String) (a : Nat) (m : VarMap) (var : Variable)
    (h : mapGet? m a = some var) :
    to_write_string_zp mn a m = (mn ++ " " ++ var.name ++ "", m) := by
  unfold to_write_string_zp
  rw [h, String.append_empty]

theorem tws_zpx_boundS (mn : String) (a : Nat) (m : VarMap) (var : Variable)
    (h : mapGet? m a = some var) :
    to_write_string_zp_x mn a m = (mn ++ " " ++ var.name ++ ",x", m) := by
  unfold to_write_string_zp_x
  rw [h]

theorem tws_abs_boundS (mn : String) (a : Nat) (m : VarMap) (var : Variable)
    (h : mapGet? m a = some var) :
    to_write_string_abs mn a m = (mn ++ " " ++ var.name ++ "", m) := by
  unfold to_write_string_abs
  rw [h, String.append_empty]

theorem tws_absx_boundS (mn : String) (a : Nat) (m : VarMap) (var : Variable)
    (h : mapGet? m a = some var) :
    to_write_string_abs_x mn a m = (mn ++ " " ++ var.name ++ ",x", m) := by
  unfold to_write_string_abs_x
  rw [h]

theorem tws_absy_boundS (mn : String) (a : Nat) (m : VarMap) (var : Variable)
    (h : mapGet? m a = some var) :
    to_write_string_abs_y mn a m = (mn ++ " " ++ var.name ++ ",y", m) := by
  unfold to_write_string_abs_y
  rw [h]

theorem tws_zp_unb (mn : String) (a : Nat) (m : VarMap) (h : mapGet? m a = none) :
    (to_write_string_zp mn a m).2 = mapInsert m a ⟨"ZP_" ++ hex2U a, .U8 a⟩ := by
  unfold to_write_string_zp
  rw [h]

theorem tws_zpx_unb (mn : String) (a : Nat) (m : VarMap) (h : mapGet? m a = none) :
    (to_write_string_zp_x mn a m).2 = mapInsert m a ⟨"ZP_" ++ hex2U a, .U8 a⟩ := by
  unfold to_write_string_zp_x
  rw [h]

theorem tws_abs_unb (mn : String) (a : Nat) (m : VarMap) (h : mapGet? m a = none) :
    (to_write_string_abs mn a m).2 = mapInsert m a ⟨"ABS_" ++ hex4U a, .U16 a⟩ := by
  unfold to_write_string_abs
  rw [h]

theorem tws_absx_unb (mn : String) (a : Nat) (m : VarMap) (h : mapGet? m a = none) :
    (to_write_string_abs_x mn a m).2 = mapInsert m a ⟨"ABS_" ++ hex4U a, .U16 a⟩ := by
  unfold to_write_string_abs_x
  rw [h]

theorem tws_absy_unb (mn : String) (a : Nat) (m : VarMap) (h : mapGet? m a = none) :
    (to_write_string_abs_y mn a m).2 = mapInsert m a ⟨"ABS_" ++ hex4U a, .U16 a⟩ := by
  unfold to_write_string_abs_y
  rw [h]

set_option maxHeartbeats 2000000 in
theorem tws_parts_bound (i : Instruction) (mn : String) (k : OpndKind) (a : Nat)
    (m : VarMap) (var : Variable)
    (hp : instrParts i = some (mn, k, a)) (h : mapGet? m a = some var) :
    i.to_write_string m = (mn ++ " " ++ var.name ++ suffixOf k, m) := by
  cases i <;>
    first
      | (simp [instrParts] at hp
         done)
      | (simp only [instrParts, Option.some.injEq, Prod.mk.injEq] at hp
         obtain ⟨h1, h2, h3⟩ := hp
         subst h1
         subst h2
         subst h3
         simp only [suffixOf]
         first
           | exact tws_zp_boundS _ _ _ _ h
           | exact tws_zpx_boundS _ _ _ _ h
           | exact tws_abs_boundS _ _ _ _ h
           | exact tws_absx_boundS _ _ _ _ h
           | exact tws_absy_boundS _ _ _ _ h)

set_option maxHeartbeats 2000000 in
theorem tws_parts_unbound_map (i : Instruction) (mn : String) (k : OpndKind) (a : Nat)
    (m : VarMap)
    (hp : instrParts i = some (mn, k, a)) (h : mapGet? m a = none) :
    (i.to_write_string m).2 = mapInsert m a (synthVar k a) := by
  cases i <;>
    first
      | (simp [instrParts] at hp
         done)
      | (simp only [instrParts, Option.some.injEq, Prod.mk.injEq] at hp
         obtain ⟨h1, h2, h3⟩ := hp
         subst h1
         subst h2
         subst h3
         simp only [synthVar]
         first
           | exact tws_zp_unb _ _ _ h
           | exact tws_zpx_unb _ _ _ h
           | exact tws_abs_unb _ _ _ h
           | exact tws_absx_unb _ _ _ h
           | exact tws_absy_unb _ _ _ h)

set_option maxHeartbeats 2000000 in
theorem tws_parts_none (i : Instruction) (m : VarMap) (hp : instrParts i = none) :
    (i.to_write_string m).2 = m := by
  cases i <;>
    first
      | rfl
      | (simp [instrParts] at hp)

theorem asm_tws_instr (i : Instruction) (m : VarMap) :
    AsmCode.to_write_string (.instruction i) m =
      ("    " ++ (i.to_write_string m).1, (i.to_write_string m).2) := rfl

theorem tws_stable (x : AsmCode) (m : VarMap)
    (h : ∀ a ∈ needsOf x, (mapGet? m a).isSome) :
    (x.to_write_string m).2 = m := by
  cases x with
  | instruction i =>
    rw [asm_tws_instr]
    cases hp : instrParts i with
    | none => exact tws_parts_none i m hp
    | some t =>
      obtain ⟨mn, k, a⟩ := t
      have ha : a ∈ needsOf (AsmCode.instruction i) := by
        simp [needsOf, hp]
      obtain ⟨var, hvar⟩ := Option.isSome_iff_exists.mp (h a ha)
      rw [tws_parts_bound i mn k a m var hp hvar]
  | dataHexU8 v => rfl
  | dataHexU16 v => rfl
  | dataU8 v => rfl
  | dataBinaryU8 v => rfl
  | dataString v => rfl
  | dataSeq l => rfl
  | used => rfl

theorem tws_binds (x : AsmCode) (m : VarMap) (a : Nat) (ha : a ∈ needsOf x) :
    (mapGet? ((x.to_write_string m).2) a).isSome := by
  cases x with
  | instruction i =>
    rw [asm_tws_instr]
    cases hp : instrParts i with
    | none => simp [needsOf, hp] at ha
    | some t =>
      obtain ⟨mn, k, b⟩ := t
      have hab : a = b := by
        simp [needsOf, hp] at ha
        exact ha
      subst hab
      cases hb : mapGet? m a with
      | some var =>
        rw [tws_parts_bound i mn k a m var hp hb]
        simp [hb]
      | none =>
        rw [tws_parts_unbound_map i mn k a m hp hb]
        rw [mapGet?_insert_self]
        rfl
  | dataHexU8 v => simp [needsOf] at ha
  | dataHexU16 v => simp [needsOf] at ha
  | dataU8 v => simp [needsOf] at ha
  | dataBinaryU8 v => simp [needsOf] at ha
  | dataString v => simp [needsOf] at ha
  | dataSeq l => simp [needsOf] at ha
  | used => simp [needsOf] at ha

theorem prepass_binds (L : List Statement) : ∀ (m : VarMap) (s : Statement), s ∈ L →
    ∀ a ∈ needsOf s.asm_code, (mapGet? (prepassMap L m) a).isSome := by
  induction L with
  | nil =>
    intro m s hs
    cases hs
  | cons t rest ih =>
    intro m s hs a ha
    rcases List.mem_cons.mp hs with rfl | hmem
    · show (mapGet? (prepassMap rest (s.asm_code.to_write_string m).2) a).isSome
      obtain ⟨var, hvar⟩ := Option.isSome_iff_exists.mp (tws_binds s.asm_code m a ha)
      rw [prepass_preserve rest _ hvar]
      rfl
    · exact ih _ s hmem a ha

theorem cellBlock_used (m : VarMap) (s : Statement) (hu : s.asm_code.isUsed = true) :
    cellBlock m s = [] := by
  unfold cellBlock
  rw [if_pos hu]

theorem cellBlock_not_used (m : VarMap) (s : Statement) (hu : ¬ s.asm_code.isUsed = true) :
    cellBlock m s =
      (match s.segment with
        | some sg => [segBanner sg]
        | none => []) ++
      (match s.label with
        | some l => [l ++ ":"]
        | none => []) ++
      [with_comment (s.asm_code.to_write_string m).1 s.comment] := by
  unfold cellBlock
  rw [if_neg hu]

theorem emit_stable (L : List Statement) (m : VarMap)
    (h : ∀ s ∈ L, ∀ a ∈ needsOf s.asm_code, (mapGet? m a).isSome) :
    emitStmts L m = ((L.map (cellBlock m)).join, m) := by
  induction L with
  | nil => rfl
  | cons s rest ih =>
    have hrest : ∀ t ∈ rest, ∀ a ∈ needsOf t.asm_code, (mapGet? m a).isSome :=
      fun t ht a ha => h t (List.mem_cons_of_mem s ht) a ha
    have hstep : (s.asm_code.to_write_string m).2 = m :=
      tws_stable s.asm_code m (h s (List.mem_cons_self s rest))
    by_cases hu : s.asm_code.isUsed
    · show emitStmts (s :: rest) m = _
      unfold emitStmts
      rw [if_pos hu, ih hrest, List.map_cons, cellBlock_used m s hu]
      simp
    · show emitStmts (s :: rest) m = _
      unfold emitStmts
      rw [if_neg hu, hstep, ih hrest, List.map_cons, cellBlock_not_used m s hu]
      simp

theorem write_eq_spec (c : Code) :
    Code.write c = defineLines (finalMap c) ++ (c.stmts.map (cellBlock (finalMap c))).join := by
  show defineLines (finalMap c) ++ (emitStmts c.stmts (finalMap c)).1 = _
  rw [emit_stable c.stmts (finalMap c)
    (fun s hs a ha => prepass_binds c.stmts c.addr_to_variable s hs a ha)]

theorem filterMap_length_of_isSome {α β : Type} (l : List α) (f : α → Option β)
    (h : ∀ x ∈ l, (f x).isSome) : (l.filterMap f).length = l.length := by
  induction l with
  | nil => rfl
  | cons x rest ih =>
    obtain ⟨y, hy⟩ := Option.isSome_iff_exists.mp (h x (List.mem_cons_self x rest))
    rw [List.filterMap_cons, hy, List.length_cons]
    rw [ih (fun t ht => h t (List.mem_cons_of_mem x ht))]
    rfl

theorem sortKeys_sorted (m : VarMap) : List.Sorted (· ≤ ·) (sortKeys m) :=
  List.sorted_insertionSort _ _

theorem sortKeys_perm (m : VarMap) : (sortKeys m).Perm (mapKeys m) :=
  List.perm_insertionSort _ _

theorem defineLines_length (m : VarMap) :
    (defineLines m).length = (mapKeys m).length := by
  unfold defineLines
  rw [filterMap_length_of_isSome]
  · exact (sortKeys_perm m).length_eq
  · intro k hk
    have := mapGet?_isSome_of_mem_keys m k ((sortKeys_perm m).mem_iff.mp hk)
    obtain ⟨v, hv⟩ := Option.isSome_iff_exists.mp this
    rw [hv]
    rfl

theorem prepass_nodup (L : List Statement) (m : VarMap)
    (h : (mapKeys m).Nodup) : (mapKeys (prepassMap L m)).Nodup := by
  induction L generalizing m with
  | nil => exact h
  | cons s rest ih =>
    refine ih _ ?_
    rcases asm_render_step s.asm_code m with heq | ⟨k, hk, hins⟩
    · rw [heq]
      exact h
    · rcases hins with heq | heq <;> rw [heq] <;> exact mapKeys_insert_nodup _ _ _ h

theorem hexDigitU_mem (n : Nat) (h : n < 16) : hexDigitU n ∈ upperHexDigits := by
  interval_cases n <;> decide

theorem hex2U_shape (a : Nat) (_h : a < 256) :
    (hex2U a).length = 2 ∧ ∀ ch ∈ (hex2U a).data, ch ∈ upperHexDigits := by
  refine ⟨rfl, ?_⟩
  intro ch hch
  have hd : ch = hexDigitU (a / 16 % 16) ∨ ch = hexDigitU (a % 16) := by
    simpa [hex2U] using hch
  rcases hd with rfl | rfl
  · exact hexDigitU_mem _ (by omega)
  · exact hexDigitU_mem _ (by omega)

theorem hex4U_shape (a : Nat) (_h : a < 65536) :
    (hex4U a).length = 4 ∧ ∀ ch ∈ (hex4U a).data, ch ∈ upperHexDigits := by
  refine ⟨rfl, ?_⟩
  intro ch hch
  have hd : ch = hexDigitU (a / 4096 % 16) ∨ ch = hexDigitU (a / 256 % 16) ∨
      ch = hexDigitU (a / 16 % 16) ∨ ch = hexDigitU (a % 16) := by
    simpa [hex4U] using hch
  rcases hd with rfl | rfl | rfl | rfl <;> exact hexDigitU_mem _ (by omega)

/-- C9: serialization emits first one define line per registered variable,
in ascending address order, then every non-tombstone cell's rendering in
offset order, each preceded by its segment banner (when the cell carries a
segment) and its label line (when present); a tombstone cell renders as
the empty block and contributes no output line at all. -/
theorem C9_serialization (c : Code) :
    Code.write c =
      defineLines (finalMap c) ++ (c.stmts.map (cellBlock (finalMap c))).join ∧
    List.Sorted (· ≤ ·) (sortKeys (finalMap c)) ∧
    (∀ s : Statement, s.asm_code.isUsed = true → cellBlock (finalMap c) s = []) ∧
    (defineLines (finalMap c)).length = (mapKeys (finalMap c)).length ∧
    ((mapKeys c.addr_to_variable).Nodup → (mapKeys (finalMap c)).Nodup) ∧
    (∀ s : Statement, ¬ s.asm_code.isUsed = true →
      cellBlock (finalMap c) s =
        (match s.segment with
          | some sg => [segBanner sg]
          | none => []) ++
        (match s.label with
          | some l => [l ++ ":"]
          | none => []) ++
        [with_comment (s.asm_code.to_write_string (finalMap c)).1 s.comment]) := by
  refine ⟨write_eq_spec c, sortKeys_sorted _, ?_, defineLines_length _, ?_, ?_⟩
  · intro s hu
    exact cellBlock_used _ s hu
  · intro h
    exact prepass_nodup _ _ h
  · intro s hu
    exact cellBlock_not_used _ s hu

theorem C9_serialization_witness :
    (Code.write ⟨[⟨.instruction (.LDA_ZP 5), none, none, none⟩, usedStatement], []⟩ =
      defineLines (finalMap ⟨[⟨.instruction (.LDA_ZP 5), none, none, none⟩, usedStatement], []⟩) ++
      ((⟨[⟨.instruction (.LDA_ZP 5), none, none, none⟩, usedStatement], []⟩ : Code).stmts.map
        (cellBlock (finalMap ⟨[⟨.instruction (.LDA_ZP 5), none, none, none⟩, usedStatement], []⟩))).join) ∧
    cellBlock (finalMap ⟨[⟨.instruction (.LDA_ZP 5), none, none, none⟩, usedStatement], []⟩)
      usedStatement = [] ∧
    (mapKeys (finalMap ⟨[⟨.instruction (.LDA_ZP 5), none, none, none⟩, usedStatement], []⟩)).Nodup :=
  ⟨(C9_serialization _).1,
   (C9_serialization ⟨[⟨.instruction (.LDA_ZP 5), none, none, none⟩, usedStatement], []⟩).2.2.1
      usedStatement rfl,
   (C9_serialization ⟨[⟨.instruction (.LDA_ZP 5), none, none, none⟩, usedStatement], []⟩).2.2.2.2.1
      (by decide)⟩

/-- C7: a zero-page or absolute operand address with no binding at
rendering time synthesizes a fresh variable (ZP_ plus exactly two
uppercase hex digits for zero-page, ABS_ plus exactly four uppercase hex
digits for absolute), an already-bound address always renders as its
existing name, and in the final serialized output every such cell's line
renders the name bound to its address in the final variable map, so two
operands with the same address render identically everywhere. -/
theorem C7_operand_naming :
    (∀ (i : Instruction) (mn : String) (k : OpndKind) (a : Nat) (m : VarMap),
        instrParts i = some (mn, k, a) → mapGet? m a = none →
          (i.to_write_string m).2 = mapInsert m a (synthVar k a) ∧
          mapGet? ((i.to_write_string m).2) a = some (synthVar k a)) ∧
    (∀ a : Nat,
        (synthVar .zp a).name = "ZP_" ++ hex2U a ∧
        (synthVar .zpx a).name = "ZP_" ++ hex2U a ∧
        (synthVar .abs a).name = "ABS_" ++ hex4U a ∧
        (synthVar .absx a).name = "ABS_" ++ hex4U a ∧
        (synthVar .absy a).name = "ABS_" ++ hex4U a) ∧
    (∀ a : Nat, a < 256 → (hex2U a).length = 2 ∧ ∀ ch ∈ (hex2U a).data, ch ∈ upperHexDigits) ∧
    (∀ a : Nat, a < 65536 → (hex4U a).length = 4 ∧ ∀ ch ∈ (hex4U a).data, ch ∈ upperHexDigits) ∧
    (∀ (i : Instruction) (mn : String) (k : OpndKind) (a : Nat) (m : VarMap) (var : Variable),
        instrParts i = some (mn, k, a) → mapGet? m a = some var →
          i.to_write_string m = (mn ++ " " ++ var.name ++ suffixOf k, m)) ∧
    (∀ (c : Code) (s : Statement) (i : Instruction) (mn : String) (k : OpndKind) (a : Nat),
        s ∈ c.stmts → s.asm_code = .instruction i → instrParts i = some (mn, k, a) →
        ∃ var, mapGet? (finalMap c) a = some var ∧
          cellBlock (finalMap c) s =
            (match s.segment with
              | some sg => [segBanner sg]
              | none => []) ++
            (match s.label with
              | some l => [l ++ ":"]
              | none => []) ++
            [with_comment ("    " ++ mn ++ " " ++ var.name ++ suffixOf k) s.comment] ∧
          (mapGet? c.addr_to_variable a = none →
            var = synthVar .zp a ∨ var = synthVar .abs a)) := by
  refine ⟨?_, ?_, hex2U_shape, hex4U_shape, tws_parts_bound, ?_⟩
  · intro i mn k a m hp h
    have hmap := tws_parts_unbound_map i mn k a m hp h
    exact ⟨hmap, by rw [hmap, mapGet?_insert_self]⟩
  · intro a
    exact ⟨rfl, rfl, rfl, rfl, rfl⟩
  · intro c s i mn k a hs hasm hp
    have hbound : (mapGet? (finalMap c) a).isSome := by
      apply prepass_binds c.stmts c.addr_to_variable s hs
      simp [needsOf, hasm, hp]
    obtain ⟨var, hvar⟩ := Option.isSome_iff_exists.mp hbound
    have hnu : ¬ s.asm_code.isUsed = true := by
      rw [hasm]
      simp [AsmCode.isUsed]
    have hfst : (s.asm_code.to_write_string (finalMap c)).1 =
        "    " ++ mn ++ " " ++ var.name ++ suffixOf k := by
      rw [hasm, asm_tws_instr, tws_parts_bound i mn k a _ var hp hvar]
      simp [String.append_assoc]
    refine ⟨var, hvar, ?_, ?_⟩
    · rw [cellBlock_not_used _ s hnu, hfst]
    · intro hinit
      exact prepass_new_shape c.stmts c.addr_to_variable hinit hvar

theorem C7_operand_naming_witness :
    (instrParts (.LDA_ZP 5) = some ("lda", OpndKind.zp, 5)) ∧
    (mapGet? [] 5 = none) ∧
    ((Instruction.LDA_ZP 5).to_write_string []).2 =
      mapInsert [] 5 (synthVar .zp 5) ∧
    ((5 : Nat) < 256 ∧ (hex2U 5).length = 2) ∧
    (Instruction.STA_ZP 5).to_write_string [(5, synthVar .zp 5)] =
      ("sta" ++ " " ++ (synthVar OpndKind.zp 5).name ++ suffixOf .zp,
        [(5, synthVar .zp 5)]) := by
  refine ⟨rfl, rfl, ?_, ⟨by decide, ?_⟩, ?_⟩
  · exact (C7_operand_naming.1 (.LDA_ZP 5) "lda" .zp 5 [] rfl rfl).1
  · exact (C7_operand_naming.2.2.1 5 (by decide)).1
  · exact C7_operand_naming.2.2.2.2.1 (.STA_ZP 5) "sta" .zp 5 [(5, synthVar .zp 5)]
      (synthVar .zp 5) rfl (by rfl)

theorem to_u8_ok_byteLike {a : AsmCode} {v : Nat} (h : a.to_u8 = .ok v) :
    a.isByteLike = true := by
  cases a <;> first | rfl | exact (Except.noConfusion h)

theorem get_u8_ok {offset : Nat} {c : Code} {v : Nat} {c2 : Code}
    (h : Code.get_u8 offset c = .ok (v, c2)) :
    c2 = c ∧ ∃ s, c.stmts.get? offset = some s ∧ s.asm_code.to_u8 = .ok v := by
  unfold Code.get_u8 at h
  split at h
  case h_1 s heq =>
    split at h
    case h_1 w heq2 =>
      cases h
      exact ⟨rfl, s, heq, heq2⟩
    case h_2 e heq2 => cases h
  case h_2 heq => cases h

theorem get_i8_ok {offset : Nat} {c : Code} {v : Int} {c2 : Code}
    (h : Code.get_i8 offset c = .ok (v, c2)) :
    c2 = c ∧ ∃ s w, c.stmts.get? offset = some s ∧ s.asm_code.to_u8 = .ok w ∧
      v = u8AsI8 w := by
  unfold Code.get_i8 mBind at h
  split at h
  case h_1 w c1 heq =>
    obtain ⟨hc1, s, hs, hw⟩ := get_u8_ok heq
    subst hc1
    cases h
    exact ⟨rfl, s, w, hs, hw, rfl⟩
  case h_2 => cases h
  case h_3 => cases h
  case h_4 => cases h

theorem is_instruction_ok {offset : Nat} {c : Code} {b : Bool} {c2 : Code}
    (h : Code.is_instruction offset c = .ok (b, c2)) :
    c2 = c ∧ ∃ s, c.stmts.get? offset = some s ∧ s.asm_code.isInstr = b := by
  unfold Code.is_instruction at h
  split at h
  case h_1 s heq =>
    cases h
    exact ⟨rfl, s, heq, rfl⟩
  case h_2 => cases h

theorem take_ok {offset : Nat} {c : Code} {s : Statement} {c2 : Code}
    (h : Code.take offset c = .ok (s, c2)) :
    c.stmts.get? offset = some s ∧
    c2 = ⟨c.stmts.set offset usedStatement, c.addr_to_variable⟩ := by
  unfold Code.take at h
  split at h
  case h_1 t heq =>
    cases h
    exact ⟨heq, rfl⟩
  case h_2 => cases h

theorem setAsm_ok {offset : Nat} {a : AsmCode} {c : Code} {u : Unit} {c2 : Code}
    (h : Code.setAsm offset a c = .ok (u, c2)) :
    ∃ s, c.stmts.get? offset = some s ∧
      c2 = ⟨c.stmts.set offset { s with asm_code := a }, c.addr_to_variable⟩ := by
  unfold Code.setAsm at h
  split at h
  case h_1 s heq =>
    cases h
    exact ⟨s, heq, rfl⟩
  case h_2 => cases h

theorem set_label_ok {offset : Nat} {lab : String} {c : Code} {u : Unit} {c2 : Code}
    (h : Code.set_label offset lab c = .ok (u, c2)) :
    ∃ s, c.stmts.get? offset = some s ∧
      c2 = ⟨c.stmts.set offset { s with label := some lab }, c.addr_to_variable⟩ := by
  unfold Code.set_label at h
  split at h
  case h_1 s heq =>
    cases h
    exact ⟨s, heq, rfl⟩
  case h_2 => cases h

theorem mPure_ok {α : Type} {a : α} {c : Code} {b : α} {c2 : Code}
    (h : mPure a c = .ok (b, c2)) : b = a ∧ c2 = c := by
  cases h
  exact ⟨rfl, rfl⟩

theorem get?_some_lt {α : Type} {l : List α} {n : Nat} {a : α}
    (h : l.get? n = some a) : n < l.length := by
  by_contra hc
  rw [List.get?_eq_none.mpr (by omega)] at h
  cases h

theorem replaceUsedLoop_ok : ∀ (n start : Nat) (c : Code) (u : Unit) (c2 : Code),
    Code.replaceUsedLoop start n c = .ok (u, c2) →
    c2.addr_to_variable = c.addr_to_variable ∧
    c2.stmts.length = c.stmts.length ∧
    (∀ p, p < start ∨ start + n ≤ p → c2.stmts.get? p = c.stmts.get? p) ∧
    (∀ p, start ≤ p → p < start + n →
        ∃ s, c.stmts.get? p = some s ∧
          c2.stmts.get? p = some { s with asm_code := AsmCode.used }) := by
  intro n
  induction n with
  | zero =>
    intro start c u c2 h
    cases h
    exact ⟨rfl, rfl, fun p _ => rfl, fun p h1 h2 => by omega⟩
  | succ m ih =>
    intro start c u c2 h
    rw [Code.replaceUsedLoop, mBind_eq_ok] at h
    obtain ⟨u1, c1, h1, h2⟩ := h
    obtain ⟨s, hs, rfl⟩ := setAsm_ok h1
    obtain ⟨hv, hl, hout, hin⟩ := ih (start + 1) _ u c2 h2
    have hslt : start < c.stmts.length := get?_some_lt hs
    refine ⟨hv, by rw [hl]; exact List.length_set _ _ _, ?_, ?_⟩
    · intro p hp
      have hp1 : p ≠ start := by omega
      rw [hout p (by omega)]
      exact List.get?_set_ne _ _ (by omega)
    · intro p hp1 hp2
      rcases eq_or_ne p start with rfl | hne
      · refine ⟨s, hs, ?_⟩
        rw [hout p (by omega)]
        exact List.get?_set_eq_of_lt _ hslt
      · obtain ⟨t, ht1, ht2⟩ := hin p (by omega) (by omega)
        rw [List.get?_set_ne _ _ (by omega)] at ht1
        exact ⟨t, ht1, ht2⟩

theorem takeArgsAux_ok : ∀ (n offset i : Nat) (c : Code) (args : List AsmCode) (c2 : Code),
    Code.takeArgsAux offset i n c = .ok (args, c2) →
    c2.addr_to_variable = c.addr_to_variable ∧
    c2.stmts.length = c.stmts.length ∧
    (∀ p, p < offset + i + 1 ∨ offset + i + n + 1 ≤ p → c2.stmts.get? p = c.stmts.get? p) ∧
    args.length = n ∧
    (∀ j, j < n → ∃ s, c.stmts.get? (offset + i + j + 1) = some s ∧
        c2.stmts.get? (offset + i + j + 1) = some usedStatement ∧
        args.get? j = some s.asm_code) := by
  intro n
  induction n with
  | zero =>
    intro offset i c args c2 h
    cases h
    exact ⟨rfl, rfl, fun p _ => rfl, rfl, fun j hj => by omega⟩
  | succ m ih =>
    intro offset i c args c2 h
    rw [Code.takeArgsAux, mBind_eq_ok] at h
    obtain ⟨s0, c1, h1, h2⟩ := h
    rw [mBind_eq_ok] at h2
    obtain ⟨rest, c2x, h3, h4⟩ := h2
    obtain ⟨hargs, hc2⟩ := mPure_ok h4
    subst hargs
    subst hc2
    obtain ⟨hs0, rfl⟩ := take_ok h1
    obtain ⟨hv, hl, hout, hlen, hin⟩ := ih offset (i + 1) _ rest c2 h3
    have hslt : offset + i + 1 < c.stmts.length := get?_some_lt hs0
    refine ⟨hv, by rw [hl]; exact List.length_set _ _ _, ?_, by simp [hlen], ?_⟩
    · intro p hp
      rw [hout p (by omega)]
      exact List.get?_set_ne _ _ (by omega)
    · intro j hj
      rcases Nat.eq_zero_or_pos j with rfl | hjp
      · refine ⟨s0, by simpa using hs0, ?_, rfl⟩
        have : c2.stmts.get? (offset + i + 1) =
            (c.stmts.set (offset + i + 1) usedStatement).get? (offset + i + 1) :=
          hout (offset + i + 1) (by omega)
        rw [show offset + i + 0 + 1 = offset + i + 1 by omega, this]
        exact List.get?_set_eq_of_lt _ hslt
      · obtain ⟨j2, rfl⟩ : ∃ j2, j = j2 + 1 := ⟨j - 1, by omega⟩
        obtain ⟨t, ht1, ht2, ht3⟩ := hin j2 (by omega)
        rw [List.get?_set_ne _ _ (by omega)] at ht1
        refine ⟨t, ?_, ?_, ?_⟩
        · rw [show offset + i + (j2 + 1) + 1 = offset + (i + 1) + j2 + 1 by omega]
          exact ht1
        · rw [show offset + i + (j2 + 1) + 1 = offset + (i + 1) + j2 + 1 by omega]
          exact ht2
        · simpa using ht3

theorem replace_ok {start stop : Nat} {a : AsmCode} {c : Code} {u : Unit} {c2 : Code}
    (h : Code.replace start stop a c = .ok (u, c2)) :
    c2.addr_to_variable = c.addr_to_variable ∧
    c2.stmts.length = c.stmts.length ∧
    (∀ p, p ≠ start → p < start ∨ stop ≤ p → c2.stmts.get? p = c.stmts.get? p) ∧
    (∃ s, c.stmts.get? start = some s ∧
        c2.stmts.get? start = some { s with asm_code := a }) ∧
    (∀ p, start < p → p < stop →
        ∃ s, c.stmts.get? p = some s ∧
          c2.stmts.get? p = some { s with asm_code := AsmCode.used }) := by
  rw [Code.replace, mBind_eq_ok] at h
  obtain ⟨u1, c1, h1, h2⟩ := h
  obtain ⟨hv, hl, hout, hin⟩ := replaceUsedLoop_ok (stop - start) start c u1 c1 h1
  obtain ⟨s1, hs1, rfl⟩ := setAsm_ok h2
  have hslt : start < c1.stmts.length := get?_some_lt hs1
  refine ⟨hv, by rw [List.length_set]; exact hl, ?_, ?_, ?_⟩
  · intro p hp1 hp2
    rw [List.get?_set_ne _ _ (by omega), hout p (by omega)]
  · by_cases hss : start < stop
    · obtain ⟨s, hs, hs2⟩ := hin start (by omega) (by omega)
      rw [hs2] at hs1
      cases hs1
      exact ⟨s, hs, by rw [List.get?_set_eq_of_lt _ hslt]⟩
    · have : c1.stmts.get? start = c.stmts.get? start := hout start (by omega)
      rw [this] at hs1
      exact ⟨s1, hs1, by rw [List.get?_set_eq_of_lt _ hslt]⟩
  · intro p hp1 hp2
    obtain ⟨s, hs, hs2⟩ := hin p (by omega) (by omega)
    refine ⟨s, hs, ?_⟩
    rw [List.get?_set_ne _ _ (by omega)]
    exact hs2

theorem exceptToM_ok {α : Type} {x : Except DisassembleError α} {c : Code} {a : α} {c2 : Code}
    (h : exceptToM x c = .ok (a, c2)) : x = .ok a ∧ c2 = c := by
  cases x with
  | ok b =>
    cases h
    exact ⟨rfl, rfl⟩
  | error e => cases h

theorem rwi_ok {offset al : Nat} {f : List AsmCode → Except DisassembleError Instruction}
    {c : Code} {n : Nat} {c2 : Code}
    (h : Code.replace_with_instr offset al f c = .ok (n, c2)) :
    n = al + 1 ∧
    c2.addr_to_variable = c.addr_to_variable ∧
    c2.stmts.length = c.stmts.length ∧
    (∀ p, p < offset ∨ offset + al + 1 ≤ p → c2.stmts.get? p = c.stmts.get? p) ∧
    (∃ sh instr args,
        c.stmts.get? offset = some sh ∧
        args.length = al ∧
        (∀ j, j < al → ∃ s, c.stmts.get? (offset + j + 1) = some s ∧
            args.get? j = some s.asm_code) ∧
        f args = .ok instr ∧
        c2.stmts.get? offset = some { sh with asm_code := .instruction instr }) ∧
    (∀ j, j < al → c2.stmts.get? (offset + j + 1) = some usedStatement) := by
  rw [Code.replace_with_instr, mBind_eq_ok] at h
  obtain ⟨args, c1, h1, h2⟩ := h
  rw [mBind_eq_ok] at h2
  obtain ⟨instr, c1b, h3, h4⟩ := h2
  obtain ⟨hf, hc1b⟩ := exceptToM_ok h3
  rw [hc1b] at h4
  rw [mBind_eq_ok] at h4
  obtain ⟨u2, c2x, h5, h6⟩ := h4
  obtain ⟨hn, hc2⟩ := mPure_ok h6
  subst hn
  subst hc2
  obtain ⟨hv1, hl1, hout1, hlen, hin1⟩ := takeArgsAux_ok al offset 0 c args c1 h1
  obtain ⟨hv2, hl2, hout2, hhead, hin2⟩ := replace_ok h5
  refine ⟨rfl, by rw [hv2, hv1], by rw [hl2, hl1], ?_, ?_, ?_⟩
  · intro p hp
    rw [hout2 p (by omega) (by omega), hout1 p (by omega)]
  · obtain ⟨sh1, hsh1, hsh2⟩ := hhead
    have hco : c1.stmts.get? offset = c.stmts.get? offset := hout1 offset (by omega)
    rw [hco] at hsh1
    refine ⟨sh1, instr, args, hsh1, hlen, ?_, hf, hsh2⟩
    intro j hj
    obtain ⟨s, hs1, _hs2, hs3⟩ := hin1 j hj
    exact ⟨s, by simpa using hs1, hs3⟩
  · intro j hj
    obtain ⟨s, hs1, hs2⟩ := hin2 (offset + j + 1) (by omega) (by omega)
    obtain ⟨t, ht1, ht2, _⟩ := hin1 j hj
    have : c1.stmts.get? (offset + 0 + j + 1) = c1.stmts.get? (offset + j + 1) := by
      rw [show offset + 0 + j + 1 = offset + j + 1 by omega]
    rw [this] at ht2
    rw [ht2] at hs1
    cases hs1
    exact hs2

theorem mBind_ne_fuelOut {α β : Type} {x : M α} {f : α → M β} {c : Code}
    (hx : x c ≠ .fuelOut)
    (hf : ∀ a c2, x c = .ok (a, c2) → f a c2 ≠ .fuelOut) :
    mBind x f c ≠ .fuelOut := by
  intro h
  rw [mBind_eq_fuelOut] at h
  rcases h with h | ⟨a, c2, h1, h2⟩
  · exact hx h
  · exact hf a c2 h1 h2

theorem mPure_ne_fuelOut {α : Type} (a : α) (c : Code) : mPure a c ≠ .fuelOut := by
  intro h
  cases h

theorem mThrow_ne_fuelOut {α : Type} (e : DisassembleError) (c : Code) :
    (mThrow e : M α) c ≠ .fuelOut := by
  intro h
  cases h

theorem tryM_ne_fuelOut {α : Type} {x : M α} {c : Code} (hx : x c ≠ .fuelOut) :
    tryM x c ≠ .fuelOut := by
  unfold tryM
  split
  · intro h; cases h
  · intro h; cases h
  · intro h; cases h
  · exact fun _ => hx (by assumption)

theorem exceptToM_ne_fuelOut {α : Type} (x : Except DisassembleError α) (c : Code) :
    exceptToM x c ≠ .fuelOut := by
  cases x <;> intro h <;> cases h

theorem take_ne_fuelOut (offset : Nat) (c : Code) : Code.take offset c ≠ .fuelOut := by
  unfold Code.take
  split <;> intro h <;> cases h

theorem setAsm_ne_fuelOut (offset : Nat) (a : AsmCode) (c : Code) :
    Code.setAsm offset a c ≠ .fuelOut := by
  unfold Code.setAsm
  split <;> intro h <;> cases h

theorem get_u8_ne_fuelOut (offset : Nat) (c : Code) : Code.get_u8 offset c ≠ .fuelOut := by
  unfold Code.get_u8
  split
  · split <;> intro h <;> cases h
  · intro h; cases h

theorem get_i8_ne_fuelOut (offset : Nat) (c : Code) : Code.get_i8 offset c ≠ .fuelOut := by
  unfold Code.get_i8
  exact mBind_ne_fuelOut (get_u8_ne_fuelOut offset c) (fun a c2 _ => mPure_ne_fuelOut _ _)

theorem set_label_ne_fuelOut (offset : Nat) (lab : String) (c : Code) :
    Code.set_label offset lab c ≠ .fuelOut := by
  unfold Code.set_label
  split <;> intro h <;> cases h

theorem is_instruction_ne_fuelOut (offset : Nat) (c : Code) :
    Code.is_instruction offset c ≠ .fuelOut := by
  unfold Code.is_instruction
  split <;> intro h <;> cases h

theorem replaceUsedLoop_ne_fuelOut : ∀ (n start : Nat) (c : Code),
    Code.replaceUsedLoop start n c ≠ .fuelOut := by
  intro n
  induction n with
  | zero => exact fun start c => mPure_ne_fuelOut _ _
  | succ m ih =>
    intro start c
    rw [Code.replaceUsedLoop]
    exact mBind_ne_fuelOut (setAsm_ne_fuelOut _ _ _) (fun a c2 _ => ih _ _)

theorem takeArgsAux_ne_fuelOut : ∀ (n offset i : Nat) (c : Code),
    Code.takeArgsAux offset i n c ≠ .fuelOut := by
  intro n
  induction n with
  | zero => exact fun offset i c => mPure_ne_fuelOut _ _
  | succ m ih =>
    intro offset i c
    rw [Code.takeArgsAux]
    refine mBind_ne_fuelOut (take_ne_fuelOut _ _) (fun a c2 _ => ?_)
    exact mBind_ne_fuelOut (ih _ _ _) (fun b c3 _ => mPure_ne_fuelOut _ _)

theorem replace_ne_fuelOut (start stop : Nat) (a : AsmCode) (c : Code) :
    Code.replace start stop a c ≠ .fuelOut := by
  rw [Code.replace]
  exact mBind_ne_fuelOut (replaceUsedLoop_ne_fuelOut _ _ _)
    (fun b c2 _ => setAsm_ne_fuelOut _ _ _)

theorem rwi_ne_fuelOut (offset al : Nat) (f : List AsmCode → Except DisassembleError Instruction)
    (c : Code) : Code.replace_with_instr offset al f c ≠ .fuelOut := by
  rw [Code.replace_with_instr]
  refine mBind_ne_fuelOut (takeArgsAux_ne_fuelOut _ _ _ _) (fun args c1 _ => ?_)
  refine mBind_ne_fuelOut (exceptToM_ne_fuelOut _ _) (fun instr c2 _ => ?_)
  exact mBind_ne_fuelOut (replace_ne_fuelOut _ _ _ _) (fun u c3 _ => mPure_ne_fuelOut _ _)

theorem take_ne_err (offset : Nat) (c : Code) (e : DisassembleError) :
    Code.take offset c ≠ .err e := by
  unfold Code.take
  split <;> intro h <;> cases h

theorem setAsm_ne_err (offset : Nat) (a : AsmCode) (c : Code) (e : DisassembleError) :
    Code.setAsm offset a c ≠ .err e := by
  unfold Code.setAsm
  split <;> intro h <;> cases h

theorem mBind_eq_err {α β : Type} {x : M α} {f : α → M β} {c : Code} {e : DisassembleError} :
    mBind x f c = .err e ↔
      x c = .err e ∨ ∃ a c2, x c = .ok (a, c2) ∧ f a c2 = .err e := by
  unfold mBind
  cases hx : x c with
  | ok p =>
    constructor
    · intro h
      exact Or.inr ⟨p.1, p.2, rfl, h⟩
    · rintro (h | ⟨a, c2, h1, h2⟩)
      · cases h
      · cases h1
        exact h2
  | err e2 =>
    constructor
    · intro h
      cases h
      exact Or.inl rfl
    · rintro (h | ⟨a, c2, h1, h2⟩)
      · cases h
        rfl
      · cases h1
  | crash => simp
  | fuelOut => simp

theorem replaceUsedLoop_ne_err : ∀ (n start : Nat) (c : Code) (e : DisassembleError),
    Code.replaceUsedLoop start n c ≠ .err e := by
  intro n
  induction n with
  | zero =>
    intro start c e h
    cases h
  | succ m ih =>
    intro start c e h
    rw [Code.replaceUsedLoop, mBind_eq_err] at h
    rcases h with h | ⟨a, c2, _, h2⟩
    · exact setAsm_ne_err _ _ _ _ h
    · exact ih _ _ _ h2

theorem takeArgsAux_ne_err : ∀ (n offset i : Nat) (c : Code) (e : DisassembleError),
    Code.takeArgsAux offset i n c ≠ .err e := by
  intro n
  induction n with
  | zero =>
    intro offset i c e h
    cases h
  | succ m ih =>
    intro offset i c e h
    rw [Code.takeArgsAux, mBind_eq_err] at h
    rcases h with h | ⟨a, c2, _, h2⟩
    · exact take_ne_err _ _ _ h
    · rw [mBind_eq_err] at h2
      rcases h2 with h2 | ⟨b, c3, _, h3⟩
      · exact ih _ _ _ _ h2
      · cases h3

theorem replace_ne_err (start stop : Nat) (a : AsmCode) (c : Code) (e : DisassembleError) :
    Code.replace start stop a c ≠ .err e := by
  intro h
  rw [Code.replace, mBind_eq_err] at h
  rcases h with h | ⟨b, c2, _, h2⟩
  · exact replaceUsedLoop_ne_err _ _ _ _ h
  · exact setAsm_ne_err _ _ _ _ h2

theorem rwi_const_ne_err (offset al : Nat)
    {f : List AsmCode → Except DisassembleError Instruction}
    (hf : ∀ args, ∃ i, f args = .ok i) (c : Code) (e : DisassembleError) :
    Code.replace_with_instr offset al f c ≠ .err e := by
  intro h
  rw [Code.replace_with_instr, mBind_eq_err] at h
  rcases h with h | ⟨args, c1, _, h2⟩
  · exact takeArgsAux_ne_err _ _ _ _ _ h
  · rw [mBind_eq_err] at h2
    rcases h2 with h2 | ⟨instr, c2, _, h3⟩
    · obtain ⟨i, hi⟩ := hf args
      rw [hi] at h2
      cases h2
    · rw [mBind_eq_err] at h3
      rcases h3 with h3 | ⟨u, c3, _, h4⟩
      · exact replace_ne_err _ _ _ _ _ h3
      · cases h4

theorem countP_le_of_pointwise {α : Type} (P : α → Bool) :
    ∀ (l1 l2 : List α), l1.length = l2.length →
    (∀ i x2, l2.get? i = some x2 → P x2 = true → ∃ x1, l1.get? i = some x1 ∧ P x1 = true) →
    l2.countP P ≤ l1.countP P := by
  intro l1
  induction l1 with
  | nil =>
    intro l2 hl _
    have h2 : l2 = [] := List.eq_nil_of_length_eq_zero hl.symm
    subst h2
    simp
  | cons x xs ih =>
    intro l2 hl hp
    cases l2 with
    | nil => simp
    | cons y ys =>
      have htail : ys.countP P ≤ xs.countP P := by
        apply ih ys (by simpa using hl)
        intro i x2 hi hx2
        obtain ⟨x1, h1, h2⟩ := hp (i + 1) x2 (by simpa using hi) hx2
        exact ⟨x1, by simpa using h1, h2⟩
      rw [List.countP_cons, List.countP_cons]
      by_cases hPy : P y = true
      · obtain ⟨x1, h1, h2⟩ := hp 0 y rfl hPy
        have hx : x1 = x := by
          have hg : (x :: xs).get? 0 = some x := rfl
          rw [hg] at h1
          cases h1
          rfl
        subst hx
        rw [if_pos hPy, if_pos h2]
        omega
      · rw [if_neg hPy]
        by_cases hPx : P x = true
        · rw [if_pos hPx]
          omega
        · rw [if_neg hPx]
          omega

theorem countP_lt_of_pointwise {α : Type} (P : α → Bool) :
    ∀ (l1 l2 : List α), l1.length = l2.length →
    (∀ i x2, l2.get? i = some x2 → P x2 = true → ∃ x1, l1.get? i = some x1 ∧ P x1 = true) →
    ∀ i0 x1 x2, l1.get? i0 = some x1 → P x1 = true → l2.get? i0 = some x2 → P x2 = false →
    l2.countP P < l1.countP P := by
  intro l1
  induction l1 with
  | nil =>
    intro l2 hl hp i0 x1 x2 h1 _ _ _
    rw [List.get?_eq_none.mpr (by simp)] at h1
    cases h1
  | cons x xs ih =>
    intro l2 hl hp i0 x1 x2 h1 hP1 h2 hP2
    cases l2 with
    | nil =>
      rw [List.get?_eq_none.mpr (by simp)] at h2
      cases h2
    | cons y ys =>
      have hptail : ∀ i t2, ys.get? i = some t2 → P t2 = true →
          ∃ t1, xs.get? i = some t1 ∧ P t1 = true := by
        intro i t2 hi ht2
        obtain ⟨t1, ha, hb⟩ := hp (i + 1) t2 (by simpa using hi) ht2
        exact ⟨t1, by simpa using ha, hb⟩
      rw [List.countP_cons, List.countP_cons]
      cases i0 with
      | zero =>
        have hx : x1 = x := by
          have hg : (x :: xs).get? 0 = some x := rfl
          rw [hg] at h1
          cases h1
          rfl
        have hy : x2 = y := by
          have hg : (y :: ys).get? 0 = some y := rfl
          rw [hg] at h2
          cases h2
          rfl
        subst hx
        subst hy
        have htail := countP_le_of_pointwise P xs ys (by simpa using hl) hptail
        rw [if_pos hP1, if_neg (by simp [hP2])]
        omega
      | succ j =>
        have htail := ih ys (by simpa using hl) hptail j x1 x2
          (by simpa using h1) hP1 (by simpa using h2) hP2
        by_cases hPy : P y = true
        · obtain ⟨t1, ha, hb⟩ := hp 0 y rfl hPy
          have hx : t1 = x := by
            have hg : (x :: xs).get? 0 = some x := rfl
            rw [hg] at ha
            cases ha
            rfl
          subst hx
          rw [if_pos hPy, if_pos hb]
          omega
        · rw [if_neg hPy]
          by_cases hPx : P x = true
          · rw [if_pos hPx]
            omega
          · rw [if_neg hPx]
            omega

theorem evolves_refl (c : Code) : Evolves c c :=
  ⟨rfl, fun _ _ h => h, fun _ h => h, Nat.le_refl _⟩

theorem evolves_trans {a b c : Code} (h1 : Evolves a b) (h2 : Evolves b c) : Evolves a c :=
  ⟨h2.1.trans h1.1,
   fun p i h => h2.2.1 p i (h1.2.1 p i h),
   fun p h => h2.2.2.1 p (h1.2.2.1 p h),
   h2.2.2.2.trans h1.2.2.2⟩

theorem evolves_decodedRange {c c2 : Code} (h : Evolves c c2) {s l : Nat}
    (hd : decodedRangeOk c s l) : decodedRangeOk c2 s l := by
  obtain ⟨⟨i, hi⟩, hrest⟩ := hd
  exact ⟨⟨i, h.2.1 s i hi⟩, fun k hk1 hk2 => h.2.2.1 _ (hrest k hk1 hk2)⟩

theorem cellAsm_some {c : Code} {p : Nat} {a : AsmCode} :
    cellAsm c p = some a ↔ ∃ s, c.stmts.get? p = some s ∧ s.asm_code = a := by
  unfold cellAsm
  cases hg : c.stmts.get? p <;> simp

theorem evolves_of_cellAsm_eq {c c2 : Code} (hl : c2.stmts.length = c.stmts.length)
    (h : ∀ p, cellAsm c2 p = cellAsm c p) : Evolves c c2 := by
  refine ⟨hl, ?_, ?_, ?_⟩
  · intro p i hp
    rw [h p]
    exact hp
  · intro p hp
    rw [h p]
    exact hp
  · apply countP_le_of_pointwise _ c.stmts c2.stmts hl.symm
    intro i x2 hi hx2
    have hcell : cellAsm c i = some x2.asm_code := by
      rw [← h i]
      rw [cellAsm_some]
      exact ⟨x2, hi, rfl⟩
    obtain ⟨s1, hg, hsa⟩ := cellAsm_some.mp hcell
    refine ⟨s1, hg, ?_⟩
    rw [hsa]
    exact hx2

theorem set_label_evolves {offset : Nat} {lab : String} {c : Code} {u : Unit} {c2 : Code}
    (h : Code.set_label offset lab c = .ok (u, c2)) : Evolves c c2 := by
  obtain ⟨s, hs, rfl⟩ := set_label_ok h
  have hlt := get?_some_lt hs
  apply evolves_of_cellAsm_eq (by simp)
  intro p
  unfold cellAsm
  rcases eq_or_ne p offset with rfl | hne
  · rw [List.get?_set_eq_of_lt _ hlt, hs]
    rfl
  · rw [List.get?_set_ne _ _ (Ne.symm hne)]

theorem rwi_evolves {offset al : Nat} {f : List AsmCode → Except DisassembleError Instruction}
    {c : Code} {n : Nat} {c2 : Code}
    (h : Code.replace_with_instr offset al f c = .ok (n, c2))
    (hbytes : ∀ p s, offset ≤ p → p ≤ offset + al → c.stmts.get? p = some s →
        s.asm_code.isByteLike = true) :
    Evolves c c2 ∧ byteCount c2 < byteCount c := by
  obtain ⟨hn, hv, hl, hout, ⟨sh, instr, args, hsh, hlen, hargs, hf, hhead⟩, hops⟩ := rwi_ok h
  have houtside : ∀ p, p < offset ∨ offset + al + 1 ≤ p → cellAsm c2 p = cellAsm c p := by
    intro p hp
    unfold cellAsm
    rw [hout p hp]
  have hpoint : ∀ i x2, c2.stmts.get? i = some x2 → x2.asm_code.isByteLike = true →
      ∃ x1, c.stmts.get? i = some x1 ∧ x1.asm_code.isByteLike = true := by
    intro i x2 hi hx2
    by_cases hinr : offset ≤ i ∧ i ≤ offset + al
    · exfalso
      rcases eq_or_ne i offset with rfl | hne
      · rw [hhead] at hi
        cases hi
        exact Bool.noConfusion hx2
      · obtain ⟨j, rfl⟩ : ∃ j, i = offset + j + 1 := ⟨i - offset - 1, by omega⟩
        rw [hops j (by omega)] at hi
        cases hi
        exact Bool.noConfusion hx2
    · have hp : i < offset ∨ offset + al + 1 ≤ i := by omega
      rw [hout i hp] at hi
      exact ⟨x2, hi, hx2⟩
  have hble : byteCount c2 ≤ byteCount c :=
    countP_le_of_pointwise _ c.stmts c2.stmts hl.symm hpoint
  have hblt : byteCount c2 < byteCount c := by
    refine countP_lt_of_pointwise _ c.stmts c2.stmts hl.symm hpoint offset sh
      { sh with asm_code := .instruction instr } hsh
      (hbytes offset sh (by omega) (by omega) hsh) hhead rfl
  refine ⟨⟨hl, ?_, ?_, hble⟩, hblt⟩
  · intro p i hp
    obtain ⟨s, hg, hsa⟩ := cellAsm_some.mp hp
    have hpo : p < offset ∨ offset + al + 1 ≤ p := by
      by_contra hc
      have hb := hbytes p s (by omega) (by omega) hg
      rw [hsa] at hb
      exact Bool.noConfusion hb
    rw [houtside p hpo]
    exact hp
  · intro p hp
    obtain ⟨s, hg, hsa⟩ := cellAsm_some.mp hp
    have hpo : p < offset ∨ offset + al + 1 ≤ p := by
      by_contra hc
      have hb := hbytes p s (by omega) (by omega) hg
      rw [hsa] at hb
      exact Bool.noConfusion hb
    rw [houtside p hpo]
    exact hp

theorem rwi_establishes {offset al : Nat}
    {f : List AsmCode → Except DisassembleError Instruction}
    {c : Code} {n : Nat} {c2 : Code}
    (h : Code.replace_with_instr offset al f c = .ok (n, c2)) :
    n = al + 1 ∧ c2.stmts.length = c.stmts.length ∧ decodedRangeOk c2 offset n := by
  obtain ⟨hn, hv, hl, hout, ⟨sh, instr, args, hsh, hlen, hargs, hf, hhead⟩, hops⟩ := rwi_ok h
  subst hn
  refine ⟨rfl, hl, ⟨instr, ?_⟩, ?_⟩
  · rw [cellAsm_some]
    exact ⟨_, hhead, rfl⟩
  · intro k hk1 hk2
    rw [cellAsm_some]
    refine ⟨usedStatement, ?_, rfl⟩
    have := hops (k - 1) (by omega)
    rw [show offset + (k - 1) + 1 = offset + k by omega] at this
    exact this

theorem tryM_eq_ok {α : Type} {x : M α} {c : Code} {r : Except DisassembleError α} {c2 : Code}
    (h : tryM x c = .ok (r, c2)) :
    (∃ a, x c = .ok (a, c2) ∧ r = .ok a) ∨ (∃ e, x c = .err e ∧ r = .error e ∧ c2 = c) := by
  unfold tryM at h
  split at h
  case h_1 a cx heq =>
    cases h
    exact Or.inl ⟨a, heq, rfl⟩
  case h_2 e heq =>
    cases h
    exact Or.inr ⟨e, heq, rfl, rfl⟩
  case h_3 => cases h
  case h_4 => cases h

theorem getD_of_get? {args : List AsmCode} {j : Nat} {a : AsmCode}
    (h : args.get? j = some a) : argAt args j = a := by
  unfold argAt
  rw [List.getD_eq_getD_get?, h]
  rfl

theorem arm1Fn_operand_byte {k : Nat → Instruction} {args : List AsmCode} {instr : Instruction}
    (h : arm1Fn k args = .ok instr) {a0 : AsmCode} (h0 : args.get? 0 = some a0) :
    a0.isByteLike = true := by
  unfold arm1Fn at h
  split at h
  case h_1 e heq => cases h
  case h_2 v heq =>
    rw [getD_of_get? h0] at heq
    exact to_u8_ok_byteLike heq

theorem arm2Fn_operand_byte {k : Nat → Instruction} {args : List AsmCode} {instr : Instruction}
    (h : arm2Fn k args = .ok instr) {a0 a1 : AsmCode}
    (h0 : args.get? 0 = some a0) (h1 : args.get? 1 = some a1) :
    a0.isByteLike = true ∧ a1.isByteLike = true := by
  unfold arm2Fn at h
  split at h
  case h_1 e heq => cases h
  case h_2 v heq =>
    unfold to_u16 at heq
    rw [getD_of_get? h0, getD_of_get? h1] at heq
    split at heq
    case h_1 e h2 => cases heq
    case h_2 l h2 =>
      split at heq
      case h_1 e h3 => cases heq
      case h_2 hh h3 =>
        exact ⟨to_u8_ok_byteLike h2, to_u8_ok_byteLike h3⟩

theorem engineEv : ∀ fuel, DisasmEv fuel ∧ LoopEv fuel ∧ StepEv fuel ∧ BranchEv fuel := by
  intro fuel
  induction fuel with
  | zero =>
    refine ⟨?_, ?_, ?_, ?_⟩
    · intro addr name pfx a2o o2a c u c2 h
      cases h
    · intro pfx a2o o2a addr offset c u c2 h
      cases h
    · intro t offset addr pfx a2o o2a c so c2 s _ _ h
      cases h
    · intro offset addr pfx a2o o2a k c r c2 s _ _ h
      cases h
  | succ f ih =>
    obtain ⟨ihD, ihL, ihS, ihB⟩ := ih
    have hD : DisasmEv (f + 1) := by
      intro addr name pfx a2o o2a c u c2 h
      rw [disassemble] at h
      rw [mBind_eq_ok] at h
      obtain ⟨u1, c1, hl1, hl2⟩ := h
      exact evolves_trans (set_label_evolves hl1) (ihL _ _ _ _ _ _ _ _ hl2)
    have hB : BranchEv (f + 1) := by
      intro offset addr pfx a2o o2a k c r c2 s hs hbyte h
      rw [branch_relative] at h
      rw [mBind_eq_ok] at h
      obtain ⟨rel, cg, hg, h3⟩ := h
      obtain ⟨heqg, s1, w, hs1, hw1, hvv⟩ := get_i8_ok hg
      rw [heqg] at h3
      rw [mBind_eq_ok] at h3
      obtain ⟨res, c1, ht, h4⟩ := h3
      rw [mBind_eq_ok] at h4
      obtain ⟨u2, c2x, hdis, h5⟩ := h4
      obtain ⟨hres, hc2⟩ := mPure_ok h5
      subst hres
      subst hc2
      rcases tryM_eq_ok ht with ⟨nv, hrwi, hro⟩ | ⟨e, herr, hre, hc1⟩
      · have hbytes : ∀ p t2, offset ≤ p → p ≤ offset + 1 → c.stmts.get? p = some t2 →
            t2.asm_code.isByteLike = true := by
          intro p t2 hp1 hp2 hp3
          rcases eq_or_ne p offset with rfl | hne
          · rw [hs] at hp3
            cases hp3
            exact hbyte
          · have hpo : p = offset + 1 := by omega
            subst hpo
            rw [hs1] at hp3
            cases hp3
            exact to_u8_ok_byteLike hw1
        obtain ⟨hev1, hlt1⟩ := rwi_evolves hrwi hbytes
        have hev2 := ihD _ _ _ _ _ _ _ _ hdis
        refine ⟨evolves_trans hev1 hev2, ?_⟩
        intro size hr
        exact Nat.lt_of_le_of_lt hev2.2.2.2 hlt1
      · rw [hc1] at hdis
        have hev2 := ihD _ _ _ _ _ _ _ _ hdis
        refine ⟨hev2, ?_⟩
        subst hre
        intro size hr
        cases hr
    have hS : StepEv (f + 1) := by
      intro t offset addr pfx a2o o2a c so c2 s hs hbyte h
      have hbytes0 : ∀ p t2, offset ≤ p → p ≤ offset + 0 → c.stmts.get? p = some t2 →
          t2.asm_code.isByteLike = true := by
        intro p t2 hp1 hp2 hp3
        have hpe : p = offset := by omega
        subst hpe
        rw [hs] at hp3
        cases hp3
        exact hbyte
      cases t with
      | none =>
        rw [stepOf] at h
        obtain ⟨hso, hc2⟩ := mPure_ok h
        subst hso
        rw [hc2]
        refine ⟨evolves_refl c, ?_⟩
        intro size sa heq
        cases heq
      | some tag =>
        cases tag with
        | arm0 i =>
          rw [stepOf] at h
          rw [mBind_eq_ok] at h
          obtain ⟨r, c1, h3, h4⟩ := h
          obtain ⟨hso, hc2⟩ := mPure_ok h4
          subst hso
          subst hc2
          rcases tryM_eq_ok h3 with ⟨nv, hrwi, hro⟩ | ⟨e, h0, hre, hc1⟩
          · obtain ⟨hev, hlt⟩ := rwi_evolves hrwi hbytes0
            exact ⟨hev, fun size sa _ => hlt⟩
          · rw [hc1]
            refine ⟨evolves_refl c, ?_⟩
            subst hre
            intro size sa heq
            injection heq with h5 h6
            cases h5
        | arm1 k =>
          rw [stepOf] at h
          rw [mBind_eq_ok] at h
          obtain ⟨r, c1, h3, h4⟩ := h
          obtain ⟨hso, hc2⟩ := mPure_ok h4
          subst hso
          subst hc2
          rcases tryM_eq_ok h3 with ⟨nv, hrwi, hro⟩ | ⟨e, h0, hre, hc1⟩
          · obtain ⟨_, _, _, _, ⟨sh, instr, args, hsh, hlen, hargs, hf, _⟩, _⟩ := rwi_ok hrwi
            obtain ⟨s0, hs0, ha0⟩ := hargs 0 (by omega)
            have hs0b : c.stmts.get? (offset + 1) = some s0 := hs0
            have hbytes : ∀ p t2, offset ≤ p → p ≤ offset + 1 → c.stmts.get? p = some t2 →
                t2.asm_code.isByteLike = true := by
              intro p t2 hp1 hp2 hp3
              rcases eq_or_ne p offset with rfl | hne
              · rw [hs] at hp3
                cases hp3
                exact hbyte
              · have hpo : p = offset + 1 := by omega
                subst hpo
                rw [hs0b] at hp3
                cases hp3
                exact arm1Fn_operand_byte hf ha0
            obtain ⟨hev, hlt⟩ := rwi_evolves hrwi hbytes
            exact ⟨hev, fun size sa _ => hlt⟩
          · rw [hc1]
            refine ⟨evolves_refl c, ?_⟩
            subst hre
            intro size sa heq
            injection heq with h5 h6
            cases h5
        | arm2 k =>
          rw [stepOf] at h
          rw [mBind_eq_ok] at h
          obtain ⟨r, c1, h3, h4⟩ := h
          obtain ⟨hso, hc2⟩ := mPure_ok h4
          subst hso
          subst hc2
          rcases tryM_eq_ok h3 with ⟨nv, hrwi, hro⟩ | ⟨e, h0, hre, hc1⟩
          · obtain ⟨_, _, _, _, ⟨sh, instr, args, hsh, hlen, hargs, hf, _⟩, _⟩ := rwi_ok hrwi
            obtain ⟨s0, hs0, ha0⟩ := hargs 0 (by omega)
            obtain ⟨s1, hs1, ha1⟩ := hargs 1 (by omega)
            have hs0b : c.stmts.get? (offset + 1) = some s0 := hs0
            have hs1b : c.stmts.get? (offset + 2) = some s1 := hs1
            obtain ⟨hb0, hb1⟩ := arm2Fn_operand_byte hf ha0 ha1
            have hbytes : ∀ p t2, offset ≤ p → p ≤ offset + 2 → c.stmts.get? p = some t2 →
                t2.asm_code.isByteLike = true := by
              intro p t2 hp1 hp2 hp3
              rcases eq_or_ne p offset with rfl | hne
              · rw [hs] at hp3
                cases hp3
                exact hbyte
              · rcases eq_or_ne p (offset + 1) with rfl | hne2
                · rw [hs0b] at hp3
                  cases hp3
                  exact hb0
                · have hpo : p = offset + 2 := by omega
                  subst hpo
                  rw [hs1b] at hp3
                  cases hp3
                  exact hb1
            obtain ⟨hev, hlt⟩ := rwi_evolves hrwi hbytes
            exact ⟨hev, fun size sa _ => hlt⟩
          · rw [hc1]
            refine ⟨evolves_refl c, ?_⟩
            subst hre
            intro size sa heq
            injection heq with h5 h6
            cases h5
        | stop0 i =>
          rw [stepOf] at h
          rw [mBind_eq_ok] at h
          obtain ⟨nv, c1, hrwi, h4⟩ := h
          obtain ⟨hso, hc2⟩ := mPure_ok h4
          subst hso
          subst hc2
          obtain ⟨hev, hlt⟩ := rwi_evolves hrwi hbytes0
          exact ⟨hev, fun size sa _ => hlt⟩
        | jsrArm =>
          rw [stepOf] at h
          rw [mBind_eq_ok] at h
          obtain ⟨lv, cg1, hg1, h3⟩ := h
          obtain ⟨heq1, sl, hsl, hwl⟩ := get_u8_ok hg1
          rw [heq1] at h3
          rw [mBind_eq_ok] at h3
          obtain ⟨hv2, cg2, hg2, h4⟩ := h3
          obtain ⟨heq2, sh2, hsh2, hwh⟩ := get_u8_ok hg2
          rw [heq2] at h4
          rw [mBind_eq_ok] at h4
          obtain ⟨r, c1, ht, h5⟩ := h4
          rw [mBind_eq_ok] at h5
          obtain ⟨u2, c2x, hdis, h6⟩ := h5
          obtain ⟨hso, hc2⟩ := mPure_ok h6
          subst hso
          subst hc2
          have hbytes : ∀ p t2, offset ≤ p → p ≤ offset + 2 → c.stmts.get? p = some t2 →
              t2.asm_code.isByteLike = true := by
            intro p t2 hp1 hp2 hp3
            rcases eq_or_ne p offset with rfl | hne
            · rw [hs] at hp3
              cases hp3
              exact hbyte
            · rcases eq_or_ne p (offset + 1) with rfl | hne2
              · rw [hsl] at hp3
                cases hp3
                exact to_u8_ok_byteLike hwl
              · have hpo : p = offset + 2 := by omega
                subst hpo
                rw [hsh2] at hp3
                cases hp3
                exact to_u8_ok_byteLike hwh
          rcases tryM_eq_ok ht with ⟨nv, hrwi, hro⟩ | ⟨e, h0, hre, hc1⟩
          · obtain ⟨hev1, hlt1⟩ := rwi_evolves hrwi hbytes
            have hev2 := ihD _ _ _ _ _ _ _ _ hdis
            refine ⟨evolves_trans hev1 hev2, ?_⟩
            intro size sa heq
            exact Nat.lt_of_le_of_lt hev2.2.2.2 hlt1
          · rw [hc1] at hdis
            have hev2 := ihD _ _ _ _ _ _ _ _ hdis
            refine ⟨hev2, ?_⟩
            subst hre
            intro size sa heq
            injection heq with h7 h8
            cases h7
        | jmpArm =>
          rw [stepOf] at h
          rw [mBind_eq_ok] at h
          obtain ⟨lv, cg1, hg1, h3⟩ := h
          obtain ⟨heq1, sl, hsl, hwl⟩ := get_u8_ok hg1
          rw [heq1] at h3
          rw [mBind_eq_ok] at h3
          obtain ⟨hv2, cg2, hg2, h4⟩ := h3
          obtain ⟨heq2, sh2, hsh2, hwh⟩ := get_u8_ok hg2
          rw [heq2] at h4
          rw [mBind_eq_ok] at h4
          obtain ⟨nv, c1, hrwi, h5⟩ := h4
          obtain ⟨hso, hc2⟩ := mPure_ok h5
          subst hso
          subst hc2
          have hbytes : ∀ p t2, offset ≤ p → p ≤ offset + 2 → c.stmts.get? p = some t2 →
              t2.asm_code.isByteLike = true := by
            intro p t2 hp1 hp2 hp3
            rcases eq_or_ne p offset with rfl | hne
            · rw [hs] at hp3
              cases hp3
              exact hbyte
            · rcases eq_or_ne p (offset + 1) with rfl | hne2
              · rw [hsl] at hp3
                cases hp3
                exact to_u8_ok_byteLike hwl
              · have hpo : p = offset + 2 := by omega
                subst hpo
                rw [hsh2] at hp3
                cases hp3
                exact to_u8_ok_byteLike hwh
          obtain ⟨hev, hlt⟩ := rwi_evolves hrwi hbytes
          exact ⟨hev, fun size sa _ => hlt⟩
        | branchArm k =>
          rw [stepOf] at h
          rw [mBind_eq_ok] at h
          obtain ⟨r, c1, hbr, h3⟩ := h
          obtain ⟨hso, hc2⟩ := mPure_ok h3
          subst hso
          subst hc2
          obtain ⟨hev, hstrict⟩ := ihB _ _ _ _ _ _ _ _ _ _ hs hbyte hbr
          refine ⟨hev, ?_⟩
          intro size sa heq
          injection heq with h4 h5
          exact hstrict size h4
    have hL : LoopEv (f + 1) := by
      intro pfx a2o o2a addr offset c u c2 h
      rw [disasmLoop] at h
      rw [mBind_eq_ok] at h
      obtain ⟨b, c1, hb, h3⟩ := h
      obtain ⟨heqb, s, hgs, hsb⟩ := is_instruction_ok hb
      rw [heqb] at h3
      cases b with
      | true =>
        rw [if_pos rfl] at h3
        obtain ⟨hu, hc2⟩ := mPure_ok h3
        rw [hc2]
        exact evolves_refl c
      | false =>
        rw [if_neg Bool.false_ne_true] at h3
        rw [mBind_eq_ok] at h3
        obtain ⟨v, cg, hg, h5⟩ := h3
        obtain ⟨heqg, s2, hgs2, hw⟩ := get_u8_ok hg
        rw [heqg] at h5
        rw [mBind_eq_ok] at h5
        obtain ⟨so, c1b, hstep, h6⟩ := h5
        obtain ⟨hev1, hstrict⟩ := ihS _ _ _ _ _ _ _ _ _ _ hgs2 (to_u8_ok_byteLike hw) hstep
        cases so with
        | unknownOp =>
          have h6b : mPure () c1b = .ok (u, c2) := h6
          obtain ⟨hu, hc2⟩ := mPure_ok h6b
          rw [hc2]
          exact hev1
        | stepped rr sa =>
          cases rr with
          | error e =>
            have h6b : mThrow (wrapAt e offset o2a) c1b = .ok (u, c2) := h6
            cases h6b
          | ok size =>
            rcases Nat.eq_zero_or_pos size with rfl | hpos
            · cases sa with
              | some na =>
                have h6b : disasmLoop f pfx a2o o2a na (a2o na) c1b = .ok (u, c2) := h6
                exact evolves_trans hev1 (ihL _ _ _ _ _ _ _ _ h6b)
              | none =>
                have h6b : mPure () c1b = .ok (u, c2) := h6
                obtain ⟨hu, hc2⟩ := mPure_ok h6b
                rw [hc2]
                exact hev1
            · obtain ⟨sz, rfl⟩ : ∃ sz, size = sz + 1 := ⟨size - 1, by omega⟩
              have h6b : disasmLoop f pfx a2o o2a ((addr + (sz + 1)) % 65536)
                  (offset + (sz + 1)) c1b = .ok (u, c2) := h6
              exact evolves_trans hev1 (ihL _ _ _ _ _ _ _ _ h6b)
    exact ⟨hD, hL, hS, hB⟩

theorem byteCount_pos {c : Code} {offset : Nat} {s : Statement}
    (hs : c.stmts.get? offset = some s) (hb : s.asm_code.isByteLike = true) :
    1 ≤ byteCount c := by
  have hmem : s ∈ c.stmts := List.get?_mem hs
  unfold byteCount
  exact List.countP_pos.mpr ⟨s, hmem, hb⟩

theorem engineSuff : ∀ fuel, SuffD fuel ∧ SuffL fuel ∧ SuffS fuel ∧ SuffB fuel := by
  intro fuel
  induction fuel with
  | zero =>
    refine ⟨?_, ?_, ?_, ?_⟩
    · intro addr name pfx a2o o2a c hle
      exact absurd hle (by omega)
    · intro pfx a2o o2a addr offset c hle
      exact absurd hle (by omega)
    · intro t offset addr pfx a2o o2a c s hs hbyte hle
      have hB1 := byteCount_pos hs hbyte
      exact absurd hle (by omega)
    · intro offset addr pfx a2o o2a k c s hs hbyte hle
      have hB1 := byteCount_pos hs hbyte
      exact absurd hle (by omega)
  | succ f ih =>
    obtain ⟨ihD, ihL, ihS, ihB⟩ := ih
    have hD : SuffD (f + 1) := by
      intro addr name pfx a2o o2a c hle
      rw [disassemble]
      refine mBind_ne_fuelOut (set_label_ne_fuelOut _ _ _) (fun u c1 hset => ?_)
      have hev := set_label_evolves hset
      have hle2 := hev.2.2.2
      exact ihL _ _ _ _ _ _ (by omega)
    have hB : SuffB (f + 1) := by
      intro offset addr pfx a2o o2a k c s hs hbyte hle
      have hB1 := byteCount_pos hs hbyte
      rw [branch_relative]
      refine mBind_ne_fuelOut (get_i8_ne_fuelOut _ _) (fun rel cg hg => ?_)
      obtain ⟨heqg, s1, w, hs1, hw1, hvv⟩ := get_i8_ok hg
      rw [heqg]
      show mBind (tryM (Code.replace_with_instr offset 1 _)) _ c ≠ RResult.fuelOut
      refine mBind_ne_fuelOut (tryM_ne_fuelOut (rwi_ne_fuelOut _ _ _ _)) (fun res c1 ht => ?_)
      refine mBind_ne_fuelOut ?_ (fun u c2 _ => mPure_ne_fuelOut _ _)
      rcases tryM_eq_ok ht with ⟨nv, hrwi, hro⟩ | ⟨e, herr, hre, hc1⟩
      · have hbytes : ∀ p t2, offset ≤ p → p ≤ offset + 1 → c.stmts.get? p = some t2 →
            t2.asm_code.isByteLike = true := by
          intro p t2 hp1 hp2 hp3
          rcases eq_or_ne p offset with rfl | hne
          · rw [hs] at hp3
            cases hp3
            exact hbyte
          · have hpo : p = offset + 1 := by omega
            subst hpo
            rw [hs1] at hp3
            cases hp3
            exact to_u8_ok_byteLike hw1
        obtain ⟨hev1, hlt1⟩ := rwi_evolves hrwi hbytes
        exact ihD _ _ _ _ _ _ (by omega)
      · exact absurd herr (rwi_const_ne_err _ _ (fun args => ⟨_, rfl⟩) _ _)
    have hS : SuffS (f + 1) := by
      intro t offset addr pfx a2o o2a c s hs hbyte hle
      have hB1 := byteCount_pos hs hbyte
      cases t with
      | none =>
        exact mPure_ne_fuelOut _ _
      | some tag =>
        cases tag with
        | arm0 i =>
          rw [stepOf]
          exact mBind_ne_fuelOut (tryM_ne_fuelOut (rwi_ne_fuelOut _ _ _ _))
            (fun r c1 _ => mPure_ne_fuelOut _ _)
        | arm1 k =>
          rw [stepOf]
          exact mBind_ne_fuelOut (tryM_ne_fuelOut (rwi_ne_fuelOut _ _ _ _))
            (fun r c1 _ => mPure_ne_fuelOut _ _)
        | arm2 k =>
          rw [stepOf]
          exact mBind_ne_fuelOut (tryM_ne_fuelOut (rwi_ne_fuelOut _ _ _ _))
            (fun r c1 _ => mPure_ne_fuelOut _ _)
        | stop0 i =>
          rw [stepOf]
          exact mBind_ne_fuelOut (rwi_ne_fuelOut _ _ _ _)
            (fun nv c1 _ => mPure_ne_fuelOut _ _)
        | jsrArm =>
          rw [stepOf]
          refine mBind_ne_fuelOut (get_u8_ne_fuelOut _ _) (fun lv cg1 hg1 => ?_)
          obtain ⟨heq1, sl, hsl, hwl⟩ := get_u8_ok hg1
          rw [heq1]
          show mBind (Code.get_u8 (offset + 2)) _ c ≠ RResult.fuelOut
          refine mBind_ne_fuelOut (get_u8_ne_fuelOut _ _) (fun hv cg2 hg2 => ?_)
          obtain ⟨heq2, sh2, hsh2, hwh⟩ := get_u8_ok hg2
          rw [heq2]
          show mBind (tryM (Code.replace_with_instr offset 2 _)) _ c ≠ RResult.fuelOut
          refine mBind_ne_fuelOut (tryM_ne_fuelOut (rwi_ne_fuelOut _ _ _ _))
            (fun r c1 ht => ?_)
          refine mBind_ne_fuelOut ?_ (fun u c2 _ => mPure_ne_fuelOut _ _)
          rcases tryM_eq_ok ht with ⟨nv, hrwi, hro⟩ | ⟨e, herr, hre, hc1⟩
          · have hbytes : ∀ p t2, offset ≤ p → p ≤ offset + 2 → c.stmts.get? p = some t2 →
                t2.asm_code.isByteLike = true := by
              intro p t2 hp1 hp2 hp3
              rcases eq_or_ne p offset with rfl | hne
              · rw [hs] at hp3
                cases hp3
                exact hbyte
              · rcases eq_or_ne p (offset + 1) with rfl | hne2
                · rw [hsl] at hp3
                  cases hp3
                  exact to_u8_ok_byteLike hwl
                · have hpo : p = offset + 2 := by omega
                  subst hpo
                  rw [hsh2] at hp3
                  cases hp3
                  exact to_u8_ok_byteLike hwh
            obtain ⟨hev1, hlt1⟩ := rwi_evolves hrwi hbytes
            exact ihD _ _ _ _ _ _ (by omega)
          · exact absurd herr (rwi_const_ne_err _ _ (fun args => ⟨_, rfl⟩) _ _)
        | jmpArm =>
          rw [stepOf]
          refine mBind_ne_fuelOut (get_u8_ne_fuelOut _ _) (fun lv cg1 hg1 => ?_)
          obtain ⟨heq1, sl, hsl, hwl⟩ := get_u8_ok hg1
          rw [heq1]
          show mBind (Code.get_u8 (offset + 2)) _ c ≠ RResult.fuelOut
          refine mBind_ne_fuelOut (get_u8_ne_fuelOut _ _) (fun hv cg2 hg2 => ?_)
          obtain ⟨heq2, sh2, hsh2, hwh⟩ := get_u8_ok hg2
          rw [heq2]
          show mBind (Code.replace_with_instr offset 2 _) _ c ≠ RResult.fuelOut
          exact mBind_ne_fuelOut (rwi_ne_fuelOut _ _ _ _)
            (fun nv c1 _ => mPure_ne_fuelOut _ _)
        | branchArm k =>
          rw [stepOf]
          exact mBind_ne_fuelOut (ihB _ _ _ _ _ _ _ _ hs hbyte (by omega))
            (fun r c1 _ => mPure_ne_fuelOut _ _)
    have hL : SuffL (f + 1) := by
      intro pfx a2o o2a addr offset c hle
      rw [disasmLoop]
      refine mBind_ne_fuelOut (is_instruction_ne_fuelOut _ _) (fun b c1 hb => ?_)
      obtain ⟨heq1, s, hgs, hsb⟩ := is_instruction_ok hb
      rw [heq1]
      cases b with
      | true =>
        exact mPure_ne_fuelOut _ _
      | false =>
        show mBind (Code.get_u8 offset) _ c ≠ RResult.fuelOut
        refine mBind_ne_fuelOut (get_u8_ne_fuelOut _ _) (fun v cg hg => ?_)
        obtain ⟨heq2, s2, hgs2, hw⟩ := get_u8_ok hg
        rw [heq2]
        show mBind (stepOf f (opTable v) offset addr pfx a2o o2a) _ c ≠ RResult.fuelOut
        refine mBind_ne_fuelOut
          (ihS _ _ _ _ _ _ _ _ hgs2 (to_u8_ok_byteLike hw) (by omega))
          (fun so c1b hstep => ?_)
        obtain ⟨hev1, hstrict⟩ :=
          (engineEv f).2.2.1 _ _ _ _ _ _ _ _ _ _ hgs2 (to_u8_ok_byteLike hw) hstep
        cases so with
        | unknownOp => exact mPure_ne_fuelOut _ _
        | stepped rr sa =>
          cases rr with
          | error e => exact mThrow_ne_fuelOut _ _
          | ok size =>
            have hlt : byteCount c1b < byteCount c := hstrict _ _ rfl
            rcases Nat.eq_zero_or_pos size with rfl | hpos
            · cases sa with
              | some na => exact ihL pfx a2o o2a na (a2o na) c1b (by omega)
              | none => exact mPure_ne_fuelOut _ _
            · obtain ⟨sz, rfl⟩ : ∃ sz, size = sz + 1 := ⟨size - 1, by omega⟩
              exact ihL pfx a2o o2a ((addr + (sz + 1)) % 65536) (offset + (sz + 1)) c1b
                (by omega)
    exact ⟨hD, hL, hS, hB⟩

/-- C2: after every successful `Code::replace_with_instr` over a range of
`operand_len + 1` cells, the first cell of the range holds the installed
instruction and every other cell of the range is a tombstone, with the
cell array length unchanged; and every successful traversal keeps the
array length fixed and preserves the well-formedness of every previously
decoded range. -/
theorem C2_decoded_range :
    (∀ (offset al : Nat) (f : List AsmCode → Except DisassembleError Instruction)
        (c : Code) (n : Nat) (c2 : Code),
        Code.replace_with_instr offset al f c = .ok (n, c2) →
        n = al + 1 ∧ c2.stmts.length = c.stmts.length ∧ decodedRangeOk c2 offset n) ∧
    (∀ (fuel addr : Nat) (name pfx : String) (a2o o2a : Nat → Nat) (c : Code)
        (u : Unit) (c2 : Code) (s l : Nat),
        disassemble fuel addr name pfx a2o o2a c = .ok (u, c2) →
        c2.stmts.length = c.stmts.length ∧
        (decodedRangeOk c s l → decodedRangeOk c2 s l)) := by
  constructor
  · intro offset al f c n c2 h
    exact rwi_establishes h
  · intro fuel addr name pfx a2o o2a c u c2 s l h
    have hev := (engineEv fuel).1 _ _ _ _ _ _ _ _ h
    exact ⟨hev.1, fun hd => evolves_decodedRange hev hd⟩

theorem C2_decoded_range_witness :
    ∃ n c2,
      Code.replace_with_instr 0 1 (arm1Fn .LDA_IMM) (Code.new [0xa9, 0x05]) =
        .ok (n, c2) ∧
      n = 1 + 1 ∧ c2.stmts.length = (Code.new [0xa9, 0x05]).stmts.length ∧
      decodedRangeOk c2 0 n :=
  ⟨2, ⟨[⟨.instruction (.LDA_IMM 5), none, none, none⟩, usedStatement], []⟩, rfl,
    C2_decoded_range.1 0 1 (arm1Fn .LDA_IMM) (Code.new [0xa9, 0x05]) 2 _ rfl⟩

/-- C8: the traversal terminates on every input whose byte-like cell count
admits the linear fuel bound (the run never exhausts fuel, so the
embedded fuel is an artifact and the Rust recursion is finite); and
Scenario C concretely: a 2-byte BNE whose displacement resolves the
target to its own address installs the branch instruction before the
recursive call, so the re-entry sees an Instruction, stops, and the run
terminates with a self-referential label. -/
theorem C8_termination :
    (∀ (fuel addr : Nat) (name pfx : String) (a2o o2a : Nat → Nat) (c : Code),
        4 * byteCount c + 2 ≤ fuel →
        disassemble fuel addr name pfx a2o o2a c ≠ .fuelOut) ∧
    disassemble 9 0 "e" "p" (fun a => a) (fun o => o) (Code.new [0xd0, 0xfe, 0x60]) =
      .ok ((), ⟨[⟨.instruction (.BNE_REL (-2) "p_0000"), none, none, some "p_0000"⟩,
        usedStatement, ⟨.instruction .RTS, none, none, none⟩], []⟩) := by
  refine ⟨?_, rfl⟩
  intro fuel addr name pfx a2o o2a c hle
  exact (engineSuff fuel).1 _ _ _ _ _ _ hle

theorem C8_termination_witness :
    4 * byteCount (Code.new [0x60]) + 2 ≤ 6 ∧
    disassemble 6 0 "e" "p" (fun a => a) (fun o => o) (Code.new [0x60]) ≠
      RResult.fuelOut :=
  ⟨by decide,
    C8_termination.1 6 0 "e" "p" (fun a => a) (fun o => o) (Code.new [0x60]) (by decide)⟩

end Sixtyfive
